import Mathlib

/-!
Verification of the pylisp front end and compiler (src/pylisp.py).

The development shallowly embeds the source:
* Python objects are modelled by the type PyVal.  In the source, parsed
  S-expressions and runtime values are the same Python objects (ints, floats,
  strings, Symbol which subclasses str, lists, and the Quoted / QuasiQuoted /
  UnQuoted wrapper objects), so a single type serves both roles.
* Python floats are modelled by PyFloat: a rational for finite literal values
  plus infinities and nan.  No claim reasons about IEEE rounding; every float
  arising here is the exact value of a decimal literal.
* The host bytecode interpreter (CPython) is an external collaborator of the
  repository (spec section 1 and 6); it is modelled at its boundary by a small
  step machine over the CPython 3.8 opcodes that the compiler emits, with the
  same byte-offset jump conventions the compiler relies on (two bytes per
  instruction, jump arguments measured in bytes).
* Fallible Python code (IndexError, ValueError, AssertionError, NameError,
  TypeError, ZeroDivisionError) is modelled with Except.
-/

namespace Pylisp

/-- Python runtime errors that the modelled fragment can raise. -/
inductive PyErr where
  | nameError
  | typeError
  | valueError
  | zeroDivisionError
  | indexError
  | unboundLocal
  | attributeError
  | badBytecode
  | notModelled
  deriving DecidableEq, Repr

/-- An exact fraction num / den with positive denominator, the value of a
finite Python float in the modelled programs (every float arising here is
the exact value of a decimal literal or of exact arithmetic on such values).
The fraction is kept unreduced; Python-level equality and order compare by
cross multiplication, so 100/10 equals 10 as Python's == does. -/
structure Frac where
  num : Int
  den : Int
  deriving DecidableEq, Repr

/-- Normalize the sign so the denominator stays positive. -/
def Frac.mk' (n d : Int) : Frac := if d < 0 then ⟨-n, -d⟩ else ⟨n, d⟩

def Frac.ofInt (n : Int) : Frac := ⟨n, 1⟩

def Frac.add (x y : Frac) : Frac := ⟨x.num * y.den + y.num * x.den, x.den * y.den⟩

def Frac.sub (x y : Frac) : Frac := ⟨x.num * y.den - y.num * x.den, x.den * y.den⟩

def Frac.mul (x y : Frac) : Frac := ⟨x.num * y.num, x.den * y.den⟩

def Frac.div (x y : Frac) : Frac := Frac.mk' (x.num * y.den) (x.den * y.num)

def Frac.neg (x : Frac) : Frac := ⟨-x.num, x.den⟩

/-- Value equality by cross multiplication (denominators are positive). -/
def Frac.eq (x y : Frac) : Bool := x.num * y.den = y.num * x.den

/-- Value order by cross multiplication (denominators are positive). -/
def Frac.lt (x y : Frac) : Bool := x.num * y.den < y.num * x.den

def Frac.le (x y : Frac) : Bool := x.num * y.den ≤ y.num * x.den

/-- Python's floor for the float modulo: floored integer division. -/
def Frac.floor (x : Frac) : Int := Int.fdiv x.num x.den

/-- Scale by a power of ten (the exponent part of a float literal). -/
def Frac.scale10 (x : Frac) (e : Int) : Frac :=
  if 0 ≤ e then ⟨x.num * 10 ^ e.toNat, x.den⟩ else ⟨x.num, x.den * 10 ^ (-e).toNat⟩

/-- Value of a Python float object: an exact fraction for finite values,
plus the infinities (the Bool is the sign, true = positive) and nan. -/
inductive PyFloat where
  | finite : Frac → PyFloat
  | inf : Bool → PyFloat
  | nan : PyFloat
  deriving DecidableEq, Repr

/-- The five built-in variadic operator functions seeded into the global
environment (lisp_add, lisp_sub, lisp_mul, lisp_div, lisp_mod in the source). -/
inductive Builtin where
  | add | sub | mul | div | mod
  deriving DecidableEq, Repr

mutual

/-- A Python object of the modelled fragment.  S-expressions produced by the
reader and runtime values produced by the VM are the same objects, exactly as
in the source: sym models Symbol (a str subclass, so it compares equal to the
equal plain string), list models Python lists, and quoted / quasiquoted /
unquoted model the three wrapper classes.  func models a FunctionType made
from a compiled code object (its globals are the ambient global environment),
builtin one of the five seeded operator functions, and module the object
pushed by IMPORT_NAME. -/
inductive PyVal where
  | int : Int → PyVal
  | float : PyFloat → PyVal
  | str : String → PyVal
  | sym : String → PyVal
  | bool : Bool → PyVal
  | none : PyVal
  | list : List PyVal → PyVal
  | tuple : List PyVal → PyVal
  | quoted : PyVal → PyVal
  | quasiquoted : PyVal → PyVal
  | unquoted : PyVal → PyVal
  | builtin : Builtin → PyVal
  | func : CodeObj → PyVal
  | module : PyVal → PyVal

/-- The code object assembled by Compiler.to_code_object: argcount,
nlocals, the byte string, the constants / names / varnames tuples, the name
and the generator flag.  The stacksize field (always 32 in the source) is not
modelled: the modelled machine has an unbounded operand stack. -/
inductive CodeObj where
  | mk : Nat → Nat → List Nat → List PyVal → List PyVal → List PyVal →
      PyVal → Bool → CodeObj

end

namespace CodeObj

def argcount : CodeObj → Nat
  | .mk a _ _ _ _ _ _ _ => a

def nlocals : CodeObj → Nat
  | .mk _ n _ _ _ _ _ _ => n

def codestring : CodeObj → List Nat
  | .mk _ _ c _ _ _ _ _ => c

def consts : CodeObj → List PyVal
  | .mk _ _ _ c _ _ _ _ => c

def names : CodeObj → List PyVal
  | .mk _ _ _ _ n _ _ _ => n

def varnames : CodeObj → List PyVal
  | .mk _ _ _ _ _ v _ _ => v

def name : CodeObj → PyVal
  | .mk _ _ _ _ _ _ n _ => n

def isGenerator : CodeObj → Bool
  | .mk _ _ _ _ _ _ _ g => g

end CodeObj

/-- Numeric view of a Python value: ints, bools (int subclass) and floats all
compare and combine numerically in Python. -/
inductive Numv where
  | fin : Frac → Numv
  | pinf | ninf | nan
  deriving DecidableEq, Repr

/-- Numeric classification (int, bool and float are Python numbers). -/
def numv : PyVal → Option Numv
  | .int n => some (.fin (Frac.ofInt n))
  | .bool b => some (.fin (Frac.ofInt (if b then 1 else 0)))
  | .float (.finite q) => some (.fin q)
  | .float (.inf s) => some (if s then .pinf else .ninf)
  | .float .nan => some .nan
  | _ => Option.none

/-- Integer view: int and bool (a Python int subclass). -/
def intish : PyVal → Option Int
  | .int n => some n
  | .bool b => some (if b then 1 else 0)
  | _ => Option.none

/-- String view: str and Symbol (a str subclass). -/
def strish : PyVal → Option String
  | .str s => some s
  | .sym s => some s
  | _ => Option.none

/-- Numeric less-than following Python: any comparison with nan is false. -/
def numvLt : Numv → Numv → Bool
  | .fin a, .fin b => a.lt b
  | .fin _, .pinf => true
  | .ninf, .fin _ => true
  | .ninf, .pinf => true
  | _, _ => false

/-- Numeric less-or-equal following Python: any comparison with nan is false. -/
def numvLe : Numv → Numv → Bool
  | .fin a, .fin b => a.le b
  | .fin _, .pinf => true
  | .ninf, .fin _ => true
  | .ninf, .ninf => true
  | .ninf, .pinf => true
  | .pinf, .pinf => true
  | _, _ => false

/-- Numeric equality following Python: nan is not equal to anything,
infinities are equal to themselves. -/
def numvEq : Numv → Numv → Bool
  | .fin a, .fin b => a.eq b
  | .pinf, .pinf => true
  | .ninf, .ninf => true
  | _, _ => false

mutual

/-- Python equality (the == operator) on the modelled values: numeric values
compare numerically (so 1 == 1.0 == True), str and Symbol compare by their
characters (Symbol subclasses str), lists and tuples compare elementwise
within their own type, None equals None, and the five builtin function
objects are singletons.  The wrapper objects (Quoted, QuasiQuoted, UnQuoted)
and function objects fall back to identity in Python; distinct model values
are never identical, and no claim compares such objects, so the model returns
false for them. -/
def pyEq : PyVal → PyVal → Bool
  | .str a, .str b => a = b
  | .str a, .sym b => a = b
  | .sym a, .str b => a = b
  | .sym a, .sym b => a = b
  | .none, .none => true
  | .list a, .list b => pyEqList a b
  | .tuple a, .tuple b => pyEqList a b
  | .builtin a, .builtin b => a = b
  | a, b =>
    match numv a, numv b with
    | some x, some y => numvEq x y
    | _, _ => false

/-- Elementwise Python equality of two sequences. -/
def pyEqList : List PyVal → List PyVal → Bool
  | [], [] => true
  | a :: as', b :: bs' => pyEq a b && pyEqList as' bs'
  | _, _ => false

end

/-- Python truthiness: zero numbers, empty strings and sequences and None are
falsy; every other modelled object (including the wrapper objects, functions
and modules) is truthy. -/
def pyTruthy : PyVal → Bool
  | .int n => ¬ n = 0
  | .float (.finite q) => ¬ q.num = 0
  | .float _ => true
  | .str s => ¬ s = ""
  | .sym s => ¬ s = ""
  | .bool b => b
  | .none => false
  | .list [] => false
  | .list _ => true
  | .tuple [] => false
  | .tuple _ => true
  | _ => true

/-- Python less-than (the < operator) on the values the compiled comparisons
can meet: numbers compare numerically, strings lexicographically.  Python
also orders sequences elementwise; no claim exercises that, and the model
raises TypeError there. -/
def pyLt (a b : PyVal) : Except PyErr Bool :=
  match numv a, numv b with
  | some x, some y => .ok (numvLt x y)
  | _, _ =>
    match strish a, strish b with
    | some x, some y => .ok (decide (x < y))
    | _, _ => .error .typeError

/-- Python less-or-equal; see pyLt. -/
def pyLe (a b : PyVal) : Except PyErr Bool :=
  match numv a, numv b with
  | some x, some y => .ok (numvLe x y)
  | _, _ =>
    match strish a, strish b with
    | some x, some y => .ok (decide (x ≤ y))
    | _, _ => .error .typeError

/-- The COMPARE_OP table of the host interpreter (dis.cmp_op in CPython 3.8);
the compiler indexes into this tuple. -/
def cmp_op : List String :=
  ["<", "<=", "==", "!=", ">", ">=", "in", "not in", "is", "is not",
   "exception match", "BAD"]

/-- Semantics of COMPARE_OP for the six comparison indices the compiler can
emit (its operator set only meets the first six entries of cmp_op). -/
def compareOp (idx : Nat) (a b : PyVal) : Except PyErr PyVal :=
  match idx with
  | 0 => (pyLt a b).map PyVal.bool
  | 1 => (pyLe a b).map PyVal.bool
  | 2 => .ok (.bool (pyEq a b))
  | 3 => .ok (.bool (!pyEq a b))
  | 4 => (pyLt b a).map PyVal.bool
  | 5 => (pyLe b a).map PyVal.bool
  | _ => .error .notModelled

/-- Python unary minus on numbers. -/
def pyNeg : PyVal → Except PyErr PyVal
  | .int n => .ok (.int (-n))
  | .bool b => .ok (.int (-(if b then 1 else 0)))
  | .float (.finite q) => .ok (.float (.finite q.neg))
  | .float (.inf s) => .ok (.float (.inf (!s)))
  | .float .nan => .ok (.float .nan)
  | _ => .error .typeError

/-- Python unary plus on numbers (bools promote to int, as in Python). -/
def pyPos : PyVal → Except PyErr PyVal
  | .int n => .ok (.int n)
  | .bool b => .ok (.int (if b then 1 else 0))
  | .float f => .ok (.float f)
  | _ => .error .typeError

/-- Python + : ints (and bools) add to an int, any finite float makes the
result a float, str/Symbol concatenate to a plain str, lists and tuples
concatenate.  Arithmetic on infinities and nan is outside every claim and is
left unmodelled. -/
def pyAdd (a b : PyVal) : Except PyErr PyVal :=
  match intish a, intish b with
  | some x, some y => .ok (.int (x + y))
  | _, _ =>
    match numv a, numv b with
    | some (.fin x), some (.fin y) => .ok (.float (.finite (x.add y)))
    | some _, some _ => .error .notModelled
    | _, _ =>
      match strish a, strish b with
      | some x, some y => .ok (.str (x ++ y))
      | _, _ =>
        match a, b with
        | .list x, .list y => .ok (.list (x ++ y))
        | .tuple x, .tuple y => .ok (.tuple (x ++ y))
        | _, _ => .error .typeError

/-- Python - on numbers; see pyAdd for the numeric promotion rule. -/
def pySub (a b : PyVal) : Except PyErr PyVal :=
  match intish a, intish b with
  | some x, some y => .ok (.int (x - y))
  | _, _ =>
    match numv a, numv b with
    | some (.fin x), some (.fin y) => .ok (.float (.finite (x.sub y)))
    | some _, some _ => .error .notModelled
    | _, _ => .error .typeError

/-- Python * on numbers (sequence repetition is outside every claim and is
left unmodelled). -/
def pyMul (a b : PyVal) : Except PyErr PyVal :=
  match intish a, intish b with
  | some x, some y => .ok (.int (x * y))
  | _, _ =>
    match numv a, numv b with
    | some (.fin x), some (.fin y) => .ok (.float (.finite (x.mul y)))
    | some _, some _ => .error .notModelled
    | _, _ => .error .typeError

/-- Python / : true division always yields a float; division by zero raises
ZeroDivisionError. -/
def pyDiv (a b : PyVal) : Except PyErr PyVal :=
  match numv a, numv b with
  | some (.fin x), some (.fin y) =>
    if y.num = 0 then .error .zeroDivisionError
    else .ok (.float (.finite (x.div y)))
  | some _, some _ => .error .notModelled
  | _, _ => .error .typeError

/-- Python % : for ints the result follows the divisor's sign (floored
modulo, Int.fmod); for floats it is a - b * floor (a / b), likewise following
the divisor's sign.  A zero divisor raises ZeroDivisionError. -/
def pyMod (a b : PyVal) : Except PyErr PyVal :=
  match intish a, intish b with
  | some x, some y =>
    if y = 0 then .error .zeroDivisionError else .ok (.int (Int.fmod x y))
  | _, _ =>
    match numv a, numv b with
    | some (.fin x), some (.fin y) =>
      if y.num = 0 then .error .zeroDivisionError
      else .ok (.float (.finite (x.sub (y.mul (Frac.ofInt ((x.div y).floor))))))
    | some _, some _ => .error .notModelled
    | _, _ => .error .typeError

/-- The global environment: an insertion-ordered mapping from Python objects
to Python objects, looked up with Python equality (a dict keyed by == and
hash; Symbol keys collide with equal str keys exactly as in Python). -/
abbrev Globals := List (PyVal × PyVal)

/-- Dict lookup with Python equality. -/
def gLookup : Globals → PyVal → Option PyVal
  | [], _ => Option.none
  | (k, v) :: t, key => if pyEq k key then some v else gLookup t key

/-- Dict update: replace the first matching key, else append. -/
def gUpdate : Globals → PyVal → PyVal → Globals
  | [], key, v => [(key, v)]
  | (k, w) :: t, key, v =>
    if pyEq k key then (k, v) :: t else (k, w) :: gUpdate t key v

/-- The source's lisp_add: sum(args).  Python's sum folds + over the
arguments starting from the int 0. -/
def lisp_add (args : List PyVal) : Except PyErr PyVal :=
  args.foldlM pyAdd (.int 0)

/-- The source's lisp_sub: a single argument is negated; otherwise
subtraction is left-folded starting from the first two arguments.  With no
arguments the source raises IndexError reading args[0]. -/
def lisp_sub (args : List PyVal) : Except PyErr PyVal :=
  match args with
  | [] => .error .indexError
  | [a] => pyNeg a
  | a :: b :: rest => do
    let x ← pySub a b
    rest.foldlM pySub x

/-- The source's lisp_mul is `return reduce(operator.mul, args)`, but the
module never imports reduce (it only imports the operator module, and in
Python 3 reduce is not a builtin), so every call of this function raises
NameError before touching its arguments. -/
def lisp_mul (_args : List PyVal) : Except PyErr PyVal :=
  .error .nameError

/-- The source's lisp_div: a single argument is returned unchanged;
otherwise true division is left-folded from the first two arguments.  With no
arguments the source raises IndexError reading args[0]. -/
def lisp_div (args : List PyVal) : Except PyErr PyVal :=
  match args with
  | [] => .error .indexError
  | [a] => .ok a
  | a :: b :: rest => do
    let x ← pyDiv a b
    rest.foldlM pyDiv x

/-- The source's lisp_mod: a single argument is returned unchanged;
otherwise % is left-folded from the first two arguments. -/
def lisp_mod (args : List PyVal) : Except PyErr PyVal :=
  match args with
  | [] => .error .indexError
  | [a] => .ok a
  | a :: b :: rest => do
    let x ← pyMod a b
    rest.foldlM pyMod x

/-- Application of one of the five seeded builtin functions. -/
def applyBuiltin : Builtin → List PyVal → Except PyErr PyVal
  | .add, args => lisp_add args
  | .sub, args => lisp_sub args
  | .mul, args => lisp_mul args
  | .div, args => lisp_div args
  | .mod, args => lisp_mod args

/-- The initial global environment: the module seeds the five operator
functions under their operator names (globals()['+'] = lisp_add and so on).
The host module's other globals (classes, helper functions, Python builtins)
are not part of the modelled language surface. -/
def initialGlobals : Globals :=
  [(.str "+", .builtin .add), (.str "-", .builtin .sub),
   (.str "*", .builtin .mul), (.str "/", .builtin .div),
   (.str "%", .builtin .mod)]

/-! ### The reader: atom classifier and parser

Tokens are the strings produced by the source's regex lexer; the model takes
token lists as input (the lexer itself is pure regex matching and no claim is
about it).  Lexer tokens are never empty. -/

/-- Digit test. -/
def isDigit (c : Char) : Bool := '0' ≤ c && c ≤ '9'

/-- Value of a digit list already known to be all digits. -/
def digitsVal (cs : List Char) : Nat :=
  cs.foldl (fun a c => 10 * a + (c.toNat - '0'.toNat)) 0

/-- Python's int(tok) on lexer-style tokens: an optional sign followed by at
least one digit.  (Python also strips whitespace and allows underscores
between digits; the lexer can produce neither inside one token.) -/
def pyIntParse (s : String) : Option Int :=
  let core : List Char → Option Int := fun cs =>
    if cs ≠ [] && cs.all isDigit then some (digitsVal cs : Int) else Option.none
  match s.toList with
  | '-' :: rest => (core rest).map (fun n => -n)
  | '+' :: rest => core rest
  | cs => core cs

/-- Python's float(tok) on lexer-style tokens: an optional sign, then either
a case-insensitive inf / infinity / nan, or a decimal with at least one digit,
an optional fractional part and an optional exponent.  (Whitespace and digit
group underscores cannot occur inside a lexer token and are not modelled.) -/
def pyFloatParse (s : String) : Option PyFloat :=
  let decimal : List Char → Option PyFloat := fun cs =>
    let ip := cs.takeWhile isDigit
    let r1 := cs.dropWhile isDigit
    let (fp, r2) :=
      match r1 with
      | '.' :: t => (t.takeWhile isDigit, t.dropWhile isDigit)
      | _ => ([], r1)
    let hasDot := match r1 with | '.' :: _ => true | _ => false
    if ip = [] && fp = [] then Option.none
    else if ¬ hasDot && r1 ≠ [] then
      -- no dot, so r1 must be exactly the exponent part
      match r1 with
      | e :: t =>
        if (e = 'e' || e = 'E') then
          let (es, ds) :=
            match t with
            | '+' :: t2 => (1, t2)
            | '-' :: t2 => (-1, t2)
            | t2 => ((1 : Int), t2)
          if ds ≠ [] && ds.all isDigit then
            some (.finite ((Frac.ofInt (digitsVal ip)).scale10
              (es * (digitsVal ds : Int))))
          else Option.none
        else Option.none
      | [] => Option.none
    else
      let mant : Frac :=
        (Frac.ofInt (digitsVal ip)).add ⟨digitsVal fp, 10 ^ fp.length⟩
      match r2 with
      | [] => some (.finite mant)
      | e :: t =>
        if (e = 'e' || e = 'E') then
          let (es, ds) :=
            match t with
            | '+' :: t2 => (1, t2)
            | '-' :: t2 => (-1, t2)
            | t2 => ((1 : Int), t2)
          if ds ≠ [] && ds.all isDigit then
            some (.finite (mant.scale10 (es * (digitsVal ds : Int))))
          else Option.none
        else Option.none
  let body : List Char → Option PyFloat := fun cs =>
    let low := cs.map Char.toLower
    if low = "inf".toList || low = "infinity".toList then some (.inf true)
    else if low = "nan".toList then some .nan
    else decimal cs
  match s.toList with
  | '-' :: rest =>
    match body rest with
    | some (.finite q) => some (.finite q.neg)
    | some (.inf _) => some (.inf false)
    | some .nan => some .nan
    | Option.none => Option.none
  | '+' :: rest => body rest
  | cs => body cs

/-- Python's str.split on a single separator character. -/
def splitOnChar (sep : Char) : List Char → List (List Char)
  | [] => [[]]
  | c :: rest =>
    let r := splitOnChar sep rest
    if c = sep then [] :: r
    else
      match r with
      | h :: t => (c :: h) :: t
      | [] => [[c]]

/-- The source's atom classifier: try int(tok), then float(tok), then a
double-quote-delimited string with the delimiters stripped, then a token
containing a dot becomes the dotted-path list ['.'] + tok.split('.') (whose
elements are plain strs, not Symbols), else an interned Symbol.  The source
indexes tok[0] and tok[-1]; lexer tokens are never empty, so the model is
only used on nonempty tokens (character operations go through the token's
character list). -/
def atom (tok : String) : PyVal :=
  match pyIntParse tok with
  | some n => .int n
  | Option.none =>
    match pyFloatParse tok with
    | some f => .float f
    | Option.none =>
      let cs := tok.toList
      if cs.head? = some '"' ∧ cs.getLast? = some '"' then
        .str (String.mk (cs.drop 1).dropLast)
      else if cs.contains '.' then
        .list (.str "." ::
          (splitOnChar '.' cs).map (fun l => .str (String.mk l)))
      else .sym tok

/-- Errors of the reader: indexError models toks[0] raising IndexError on an
exhausted token list (a missing closing paren, a prefix mark with nothing
after it, or empty input); valueError models the explicit
ValueError('failed to fully parse expression') for leftover tokens; fuelOut
never escapes a sufficiently fuelled run (parseFuel_sufficient below). -/
inductive ParseErr where
  | indexError
  | valueError
  | fuelOut
  deriving DecidableEq, Repr

mutual

/-- The source's _parse, with explicit fuel for the recursion.  '(' opens a
list read by parseListF until the matching ')'; the three prefix marks wrap
exactly one following expression; any other token (including a stray ')')
is classified by atom. -/
def parseF : Nat → List String → Except ParseErr (PyVal × List String)
  | 0, _ => .error .fuelOut
  | _ + 1, [] => .error .indexError
  | fuel + 1, t :: rest =>
    if t = "(" then do
      let (xs, rest') ← parseListF fuel rest
      .ok (.list xs, rest')
    else if t = "'" then do
      let (x, rest') ← parseF fuel rest
      .ok (.quoted x, rest')
    else if t = "`" then do
      let (x, rest') ← parseF fuel rest
      .ok (.quasiquoted x, rest')
    else if t = "," then do
      let (x, rest') ← parseF fuel rest
      .ok (.unquoted x, rest')
    else .ok (atom t, rest)

/-- The while loop inside _parse: keep reading expressions until the next
token is ')' (consumed), raising IndexError if the tokens run out first. -/
def parseListF : Nat → List String → Except ParseErr (List PyVal × List String)
  | 0, _ => .error .fuelOut
  | _ + 1, [] => .error .indexError
  | fuel + 1, t :: rest =>
    if t = ")" then .ok ([], rest)
    else do
      let (x, rest') ← parseF fuel (t :: rest)
      let (xs, rest'') ← parseListF fuel rest'
      .ok (x :: xs, rest'')

end

/-- The source's _parse (the fuel 2 * toks.length + 2 is always sufficient;
see parseF_no_fuelOut below). -/
def _parse (toks : List String) : Except ParseErr (PyVal × List String) :=
  parseF (2 * toks.length + 2) toks

/-- The source's parse on an already lexed token list: read one expression
and raise ValueError if any token is left over. -/
def parse (toks : List String) : Except ParseErr PyVal :=
  match _parse toks with
  | .ok (e, []) => .ok e
  | .ok (_, _ :: _) => .error .valueError
  | .error e => .error e

/-! ### The host bytecode interpreter

The compiler targets CPython 3.8 bytecode: two bytes per instruction
(opcode, argument), jump arguments measured in bytes, POP_JUMP_IF_FALSE and
JUMP_ABSOLUTE absolute, JUMP_FORWARD relative to the following instruction.
Executing the produced code unit is the host's job (spec sections 1 and 6);
the machine below models that boundary for the opcodes this compiler emits.
LOAD_ATTR and YIELD_VALUE (attribute access on host objects, generator
suspension) stop the machine with notModelled; no claim executes them.
Frame-building calls of user-defined functions are likewise the host's
concern and stop with notModelled; calls of the five seeded builtin
functions are modelled. -/

/-- The dis.opmap entries (CPython 3.8 opcode numbers) for the mnemonics the
compiler uses. -/
def opmap : String → Nat
  | "POP_TOP" => 1
  | "DUP_TOP" => 4
  | "UNARY_POSITIVE" => 10
  | "UNARY_NEGATIVE" => 11
  | "BINARY_MULTIPLY" => 20
  | "BINARY_MODULO" => 22
  | "BINARY_ADD" => 23
  | "BINARY_SUBTRACT" => 24
  | "BINARY_TRUE_DIVIDE" => 27
  | "RETURN_VALUE" => 83
  | "YIELD_VALUE" => 86
  | "UNPACK_SEQUENCE" => 92
  | "STORE_GLOBAL" => 97
  | "LOAD_CONST" => 100
  | "BUILD_TUPLE" => 102
  | "BUILD_LIST" => 103
  | "LOAD_ATTR" => 106
  | "COMPARE_OP" => 107
  | "IMPORT_NAME" => 108
  | "JUMP_FORWARD" => 110
  | "JUMP_ABSOLUTE" => 113
  | "POP_JUMP_IF_FALSE" => 114
  | "LOAD_GLOBAL" => 116
  | "LOAD_FAST" => 124
  | "STORE_FAST" => 125
  | "CALL_FUNCTION" => 131
  | "CALL_FUNCTION_EX" => 142
  | _ => 0

/-- One frame of the host machine: instruction pointer (a byte offset into
the code string), operand stack (head is the top), fast locals (none marks
an unbound slot) and the global environment. -/
structure Frame where
  ip : Nat
  stack : List PyVal
  locals : List (Option PyVal)
  globals : Globals

/-- Result of one machine step. -/
inductive StepRes where
  | next : Frame → StepRes
  | ret : PyVal → Globals → StepRes
  | err : PyErr → StepRes

/-- One step of the host machine on the opcodes this compiler emits. -/
def step (co : CodeObj) (f : Frame) : StepRes :=
  match co.codestring.get? f.ip, co.codestring.get? (f.ip + 1) with
  | some op, some arg =>
    if op = 100 then -- LOAD_CONST
      match co.consts.get? arg with
      | some v => .next { f with ip := f.ip + 2, stack := v :: f.stack }
      | _ => .err .badBytecode
    else if op = 116 then -- LOAD_GLOBAL
      match co.names.get? arg with
      | some key =>
        match gLookup f.globals key with
        | some v => .next { f with ip := f.ip + 2, stack := v :: f.stack }
        | _ => .err .nameError
      | _ => .err .badBytecode
    else if op = 97 then -- STORE_GLOBAL
      match co.names.get? arg, f.stack with
      | some key, v :: rest =>
        .next ⟨f.ip + 2, rest, f.locals, gUpdate f.globals key v⟩
      | _, _ => .err .badBytecode
    else if op = 124 then -- LOAD_FAST
      match f.locals.get? arg with
      | some (some v) => .next { f with ip := f.ip + 2, stack := v :: f.stack }
      | some Option.none => .err .unboundLocal
      | _ => .err .badBytecode
    else if op = 125 then -- STORE_FAST
      match f.stack with
      | v :: rest =>
        if arg < f.locals.length then
          .next ⟨f.ip + 2, rest, f.locals.set arg (some v), f.globals⟩
        else .err .badBytecode
      | _ => .err .badBytecode
    else if op = 4 then -- DUP_TOP
      match f.stack with
      | v :: rest => .next { f with ip := f.ip + 2, stack := v :: v :: rest }
      | _ => .err .badBytecode
    else if op = 10 then -- UNARY_POSITIVE
      match f.stack with
      | v :: rest =>
        match pyPos v with
        | .ok w => .next { f with ip := f.ip + 2, stack := w :: rest }
        | .error e => .err e
      | _ => .err .badBytecode
    else if op = 11 then -- UNARY_NEGATIVE
      match f.stack with
      | v :: rest =>
        match pyNeg v with
        | .ok w => .next { f with ip := f.ip + 2, stack := w :: rest }
        | .error e => .err e
      | _ => .err .badBytecode
    else if op = 20 ∨ op = 22 ∨ op = 23 ∨ op = 24 ∨ op = 27 then
      -- the five binary arithmetic opcodes
      match f.stack with
      | b :: a :: rest =>
        let r := if op = 20 then pyMul a b
          else if op = 22 then pyMod a b
          else if op = 23 then pyAdd a b
          else if op = 24 then pySub a b
          else pyDiv a b
        match r with
        | .ok w => .next { f with ip := f.ip + 2, stack := w :: rest }
        | .error e => .err e
      | _ => .err .badBytecode
    else if op = 107 then -- COMPARE_OP
      match f.stack with
      | b :: a :: rest =>
        match compareOp arg a b with
        | .ok w => .next { f with ip := f.ip + 2, stack := w :: rest }
        | .error e => .err e
      | _ => .err .badBytecode
    else if op = 110 then -- JUMP_FORWARD
      .next { f with ip := f.ip + 2 + arg }
    else if op = 113 then -- JUMP_ABSOLUTE
      .next { f with ip := arg }
    else if op = 114 then -- POP_JUMP_IF_FALSE
      match f.stack with
      | v :: rest =>
        if pyTruthy v then .next { f with ip := f.ip + 2, stack := rest }
        else .next { f with ip := arg, stack := rest }
      | _ => .err .badBytecode
    else if op = 102 ∨ op = 103 then -- BUILD_TUPLE / BUILD_LIST
      if arg ≤ f.stack.length then
        let elts := (f.stack.take arg).reverse
        let packed := if op = 102 then PyVal.tuple elts else PyVal.list elts
        .next { f with ip := f.ip + 2, stack := packed :: f.stack.drop arg }
      else .err .badBytecode
    else if op = 92 then -- UNPACK_SEQUENCE
      match f.stack with
      | v :: rest =>
        match v with
        | .list xs =>
          -- elements are pushed right to left: the first ends up on top
          if xs.length = arg then
            .next { f with ip := f.ip + 2, stack := xs ++ rest }
          else .err .valueError
        | .tuple xs =>
          if xs.length = arg then
            .next { f with ip := f.ip + 2, stack := xs ++ rest }
          else .err .valueError
        | _ => .err .typeError
      | _ => .err .badBytecode
    else if op = 131 then -- CALL_FUNCTION
      if arg ≤ f.stack.length then
        let args := (f.stack.take arg).reverse
        match f.stack.drop arg with
        | callee :: rest =>
          match callee with
          | .builtin b =>
            match applyBuiltin b args with
            | .ok w => .next { f with ip := f.ip + 2, stack := w :: rest }
            | .error e => .err e
          | .func _ => .err .notModelled
          | _ => .err .typeError
        | _ => .err .badBytecode
      else .err .badBytecode
    else if op = 142 then -- CALL_FUNCTION_EX
      match f.stack with
      | it :: callee :: rest =>
        let args? : Except PyErr (List PyVal) :=
          match it with
          | .list xs => .ok xs
          | .tuple xs => .ok xs
          | _ => .error .typeError
        match args? with
        | .ok args =>
          match callee with
          | .builtin b =>
            match applyBuiltin b args with
            | .ok w => .next { f with ip := f.ip + 2, stack := w :: rest }
            | .error e => .err e
          | .func _ => .err .notModelled
          | _ => .err .typeError
        | .error e => .err e
      | _ => .err .badBytecode
    else if op = 108 then -- IMPORT_NAME
      match co.names.get? arg, f.stack with
      | some key, _fromlist :: _level :: rest =>
        .next { f with ip := f.ip + 2, stack := .module key :: rest }
      | _, _ => .err .badBytecode
    else if op = 83 then -- RETURN_VALUE
      match f.stack with
      | v :: _ => .ret v f.globals
      | _ => .err .badBytecode
    else if op = 86 ∨ op = 106 then -- YIELD_VALUE / LOAD_ATTR
      .err .notModelled
    else .err .badBytecode
  | _, _ => .err .badBytecode

/-- Iterate step exactly n times, failing if the frame returns or errors
before the n steps are done.  This is the window-execution relation used by
the compiler-correctness lemmas. -/
def multiStep (co : CodeObj) : Nat → Frame → Option Frame
  | 0, f => some f
  | n + 1, f =>
    match step co f with
    | .next f' => multiStep co n f'
    | _ => Option.none

/-- Frame f runs in exactly n steps to frame f'. -/
def RunsTo (co : CodeObj) (n : Nat) (f f' : Frame) : Prop :=
  multiStep co n f = some f'

/-- Outcome of running a frame to completion under a fuel bound. -/
inductive RunRes where
  | ok : PyVal → Globals → RunRes
  | err : PyErr → RunRes
  | timeout

/-- Run the machine until RETURN_VALUE, an error, or fuel exhaustion. -/
def runToRet (co : CodeObj) : Nat → Frame → RunRes
  | 0, _ => .timeout
  | n + 1, f =>
    match step co f with
    | .next f' => runToRet co n f'
    | .ret v g => .ok v g
    | .err e => .err e

/-- The frame eval(code) starts from: ip 0, empty stack, nlocals unbound
fast slots, the ambient global environment. -/
def initFrame (co : CodeObj) (g : Globals) : Frame :=
  ⟨0, [], List.replicate co.nlocals Option.none, g⟩

/-- The frame a call of a compiled function or transformer starts from: the
arguments fill the leading frame slots.  (CPython copies the arguments into
the frame's variable space; when argcount exceeds nlocals, as happens for
the source's transformer code objects, the slots still exist in the frame.) -/
def callFrame (co : CodeObj) (args : List PyVal) (g : Globals) : Frame :=
  ⟨0, [], args.map some ++
      List.replicate (co.nlocals - args.length) Option.none, g⟩

/-- Run a code object the way eval(code) does at top level. -/
def runCode (co : CodeObj) (fuel : Nat) (g : Globals) : RunRes :=
  runToRet co fuel (initFrame co g)

/-! ### The compiler -/

/-- Errors the compiler can raise: indexError for expr[i] on a too-short
form, valueError for unpacking an empty name/parameter spec, typeError for
unpacking or measuring a non-sequence and for calling a transformer at the
wrong arity, assertionError for the destructuring arity assert,
macroRunError when the transformer call raises at expansion time, and
fuelOut, a model artifact marking an exhausted recursion budget (macro
expansion can make the source compiler loop forever, so the model runs on
fuel). -/
inductive CompErr where
  | fuelOut
  | indexError
  | valueError
  | typeError
  | assertionError
  | macroRunError : PyErr → CompErr

/-- The macro table: a dict from str(name) to the transformer's compiled
function (a code object closed over the ambient global environment). -/
abbrev Macros := List (String × CodeObj)

/-- Macro table lookup. -/
def mLookup : Macros → String → Option CodeObj
  | [], _ => Option.none
  | (k, co) :: t, key => if k = key then some co else mLookup t key

/-- Macro table update (dict assignment). -/
def mUpdate : Macros → String → CodeObj → Macros
  | [], key, co => [(key, co)]
  | (k, c) :: t, key, co =>
    if k = key then (k, co) :: t else (k, c) :: mUpdate t key co

/-- Python's str() on the values that can be a unit's name (in practice a
Symbol; the other printable atoms are covered for totality). -/
def pyStr : PyVal → String
  | .str s => s
  | .sym s => s
  | .int n => toString n
  | .bool b => if b then "True" else "False"
  | .none => "None"
  | _ => "<obj>"

/-- expr[i] with Python's IndexError. -/
def nth (l : List PyVal) (i : Nat) : Except CompErr PyVal :=
  match l.get? i with
  | some x => .ok x
  | _ => .error .indexError

/-- Python == comparison of a form's head with a special-form name: only a
str or Symbol can equal a string literal. -/
def isHead (e : PyVal) (s : String) : Bool :=
  match e with
  | .sym t => t = s
  | .str t => t = s
  | _ => false

/-- The source's ops set (operator head symbols). -/
def ops : List String :=
  ["+", "-", "*", "/", "%", "<", "<=", "==", "!=", ">", ">="]

/-- The source's binops table: foldable binary operators and their opcodes. -/
def binops : List (String × String) :=
  [("+", "BINARY_ADD"), ("-", "BINARY_SUBTRACT"), ("*", "BINARY_MULTIPLY"),
   ("/", "BINARY_TRUE_DIVIDE"), ("%", "BINARY_MODULO")]

/-- The source's unops table: unary sign operators and their opcodes. -/
def unops : List (String × String) :=
  [("+", "UNARY_POSITIVE"), ("-", "UNARY_NEGATIVE")]

/-- Python sequence unpacking of 'name, *params = spec': a list unpacks into
head and tail; a str or Symbol unpacks into its characters as plain strs
(this is what the source's defmacro branch does when handed a bare name);
an empty sequence raises ValueError, a non-sequence TypeError. -/
def unpackNameArgs : PyVal → Except CompErr (PyVal × List PyVal)
  | .list [] => .error .valueError
  | .list (h :: t) => .ok (h, t)
  | .str s =>
    match s.toList with
    | [] => .error .valueError
    | ch :: rest => .ok (.str (String.mk [ch]), rest.map (fun c => .str (String.mk [c])))
  | .sym s =>
    match s.toList with
    | [] => .error .valueError
    | ch :: rest => .ok (.str (String.mk [ch]), rest.map (fun c => .str (String.mk [c])))
  | _ => .error .typeError

/-- Python len() / iteration over the value side of a destructuring '=':
lists and tuples yield their elements, a str or Symbol its characters. -/
def seqItems : PyVal → Except CompErr (List PyVal)
  | .list xs => .ok xs
  | .tuple xs => .ok xs
  | .str s => .ok (s.toList.map (fun c => .str (String.mk [c])))
  | .sym s => .ok (s.toList.map (fun c => .str (String.mk [c])))
  | _ => .error .typeError

/-- First index of a Python ==-equal element (list.index / the in test). -/
def pyIndex (l : List PyVal) (x : PyVal) : Option Nat :=
  l.findIdx? (fun a => pyEq a x)

/-- The compiler state: the fields of the source's Compiler class. -/
structure Compiler where
  co_consts : List PyVal
  co_names : List PyVal
  bs : List Nat
  name : PyVal
  args : List PyVal
  arg_names : List PyVal
  kind : Option String
  generator : Bool

/-- A fresh Compiler (the source's constructor; name starts as the empty
string, kind as None). -/
def Compiler.init : Compiler :=
  ⟨[], [], [], .str "", [], [], Option.none, false⟩

/-- The source's emit: append an opcode byte and an argument byte (the
one-argument form of emit passes 0 here, just as the source appends 0). -/
def Compiler.emit (c : Compiler) (op : String) (arg : Nat) : Compiler :=
  { c with bs := c.bs ++ [opmap op, arg] }

/-- The source's add_name: index of the name if already pooled, else append
(names are therefore deduplicated by Python equality). -/
def Compiler.add_name (c : Compiler) (n : PyVal) : Compiler × Nat :=
  match pyIndex c.co_names n with
  | some i => (c, i)
  | _ => ({ c with co_names := c.co_names ++ [n] }, c.co_names.length)

/-- The source's add_arg_name: like add_name, over the locals table. -/
def Compiler.add_arg_name (c : Compiler) (n : PyVal) : Compiler × Nat :=
  match pyIndex c.arg_names n with
  | some i => (c, i)
  | _ => ({ c with arg_names := c.arg_names ++ [n] }, c.arg_names.length)

/-- The source's compile_var: a tracked local reads LOAD_FAST, anything else
LOAD_GLOBAL. -/
def Compiler.compile_var (c : Compiler) (v : PyVal) : Compiler :=
  match pyIndex c.arg_names v with
  | some i => c.emit "LOAD_FAST" i
  | _ =>
    let (c', i) := c.add_name v
    c'.emit "LOAD_GLOBAL" i

/-- The source's compile_const: unconditionally append to the constant pool
and load the new slot (no deduplication happens here). -/
def Compiler.compile_const (c : Compiler) (v : PyVal) : Compiler :=
  let c' := { c with co_consts := c.co_consts ++ [v] }
  c'.emit "LOAD_CONST" c.co_consts.length

/-- The store half of compile_set, one target: a parameter stores to its
slot, any other target inside a function unit becomes a tracked local and
stores fast, otherwise the store is global.  The source spells this chain
out twice (single-target and destructuring branches) with identical text. -/
def Compiler.store_target (c : Compiler) (var : PyVal) : Compiler :=
  match pyIndex c.args var with
  | some i => c.emit "STORE_FAST" i
  | _ =>
    if c.kind = some "function" then
      let (c', i) := c.add_arg_name var
      c'.emit "STORE_FAST" i
    else
      let (c', i) := c.add_name var
      c'.emit "STORE_GLOBAL" i

/-- The source's compile_dot: load the base variable, then one LOAD_ATTR per
following property, left to right. -/
def Compiler.compile_dot (c : Compiler) (var : PyVal) (props : List PyVal) : Compiler :=
  props.foldl
    (fun c p =>
      let (c', i) := c.add_name p
      c'.emit "LOAD_ATTR" i)
    (c.compile_var var)

/-- The source's compile_import: per module, push the level 0 and the None
fromlist, IMPORT_NAME, STORE_GLOBAL; finally the expression's value is the
None constant. -/
def Compiler.compile_import (c : Compiler) (modules : List PyVal) : Compiler :=
  let c :=
    modules.foldl
      (fun c m =>
        let c := c.compile_const (.int 0)
        let c := c.compile_const .none
        let (c, i) := c.add_name m
        let c := c.emit "IMPORT_NAME" i
        let (c, j) := c.add_name m
        c.emit "STORE_GLOBAL" j)
      c
  c.compile_const .none

mutual

/-- The source's Compiler.compile dispatch.  Fuel decreases on every mutual
call; a macro expansion recurses into the replacement expression, which is
why the source compiler need not terminate and the model runs on fuel. -/
def Compiler.compile (mt : Macros) (g : Globals) :
    Nat → Compiler → PyVal → Except CompErr Compiler
  | 0, _, _ => .error .fuelOut
  | fuel + 1, c, expr =>
    match expr with
    | .list items => do
      let h ← nth items 0
      if isHead h "def" then do
        let spec ← nth items 1
        match spec with
        | .list _ => do
          let np ← unpackNameArgs spec
          let c := { c with name := np.1, args := np.2, arg_names := np.2, kind := some "function" }
          Compiler.compile_seq mt g fuel c (items.drop 2)
        | _ =>
          let c := { c with name := spec, kind := some "assignment" }
          Compiler.compile_seq mt g fuel c (items.drop 2)
      else if isHead h "defmacro" then do
        let spec ← nth items 1
        let np ← unpackNameArgs spec
        let c := { c with name := np.1, args := np.2 }
        let e2 ← nth items 2
        let c ← Compiler.compile mt g fuel c e2
        .ok { c with kind := some "macro" }
      else if isHead h "if" then do
        let e1 ← nth items 1
        let e2 ← nth items 2
        let e3 ← nth items 3
        Compiler.compile_if mt g fuel c e1 e2 e3
      else if isHead h "apply" then do
        let e1 ← nth items 1
        let e2 ← nth items 2
        Compiler.compile_apply mt g fuel c e1 e2
      else if isHead h "." then do
        let e1 ← nth items 1
        .ok (c.compile_dot e1 (items.drop 2))
      else if isHead h "import" then
        .ok (c.compile_import (items.drop 1))
      else if isHead h "yield" then do
        let e1 ← nth items 1
        Compiler.compile_yield mt g fuel c e1
      else if isHead h "=" then do
        let e1 ← nth items 1
        let e2 ← nth items 2
        Compiler.compile_set mt g fuel c e1 e2
      else if isHead h "while" then do
        let e1 ← nth items 1
        Compiler.compile_while mt g fuel c e1 (items.drop 2)
      else if isHead h "return" then do
        let e1 ← nth items 1
        Compiler.compile_return mt g fuel c e1
      else
        match strish h with
        | some s =>
          if s ∈ ops then
            Compiler.compile_op mt g fuel c s (items.drop 1)
          else
            match mLookup mt s with
            | some co =>
              -- invoke the registered transformer at compile time on the
              -- unevaluated argument expressions, then compile what it returns
              let argl := items.drop 1
              if argl.length = co.argcount then
                match runToRet co fuel (callFrame co argl g) with
                | .ok r _ => Compiler.compile mt g fuel c r
                | .err e => .error (.macroRunError e)
                | .timeout => .error .fuelOut
              else .error .typeError
            | _ => Compiler.compile_funcall mt g fuel c h (items.drop 1)
        | _ => Compiler.compile_funcall mt g fuel c h (items.drop 1)
    | .quoted x => .ok (c.compile_const x)
    | .quasiquoted x => Compiler.compile_quasiquoted mt g fuel c x
    | .sym _ => .ok (c.compile_var expr)
    | _ => .ok (c.compile_const expr)

/-- The for loops 'for x in ...: self.compile(x)' (function and assignment
bodies, while bodies, argument lists, destructuring value lists). -/
def Compiler.compile_seq (mt : Macros) (g : Globals) :
    Nat → Compiler → List PyVal → Except CompErr Compiler
  | 0, _, _ => .error .fuelOut
  | _ + 1, c, [] => .ok c
  | fuel + 1, c, x :: rest => do
    let c ← Compiler.compile mt g fuel c x
    Compiler.compile_seq mt g fuel c rest

/-- The source's compile_return. -/
def Compiler.compile_return (mt : Macros) (g : Globals) :
    Nat → Compiler → PyVal → Except CompErr Compiler
  | 0, _, _ => .error .fuelOut
  | fuel + 1, c, e => do
    let c ← Compiler.compile mt g fuel c e
    .ok (c.emit "RETURN_VALUE" 0)

/-- The source's compile_yield: mark the unit a generator, compile the
value, emit YIELD_VALUE. -/
def Compiler.compile_yield (mt : Macros) (g : Globals) :
    Nat → Compiler → PyVal → Except CompErr Compiler
  | 0, _, _ => .error .fuelOut
  | fuel + 1, c, e => do
    let c := { c with generator := true }
    let c ← Compiler.compile mt g fuel c e
    .ok (c.emit "YIELD_VALUE" 0)

/-- The source's compile_while: remember the loop head index, compile the
condition, emit a placeholder POP_JUMP_IF_FALSE, compile the body, jump back
to the head, patch the exit target to just past the loop, and load None as
the loop's value. -/
def Compiler.compile_while (mt : Macros) (g : Globals) :
    Nat → Compiler → PyVal → List PyVal → Except CompErr Compiler
  | 0, _, _, _ => .error .fuelOut
  | fuel + 1, c, cond, body => do
    let i := c.bs.length
    let c ← Compiler.compile mt g fuel c cond
    let c := c.emit "POP_JUMP_IF_FALSE" 0
    let j := c.bs.length - 1
    let c ← Compiler.compile_seq mt g fuel c body
    let c := c.emit "JUMP_ABSOLUTE" i
    let c := { c with bs := c.bs.set j c.bs.length }
    .ok (c.compile_const .none)

/-- The source's compile_set: a non-list target compiles the value,
duplicates it and stores; a list target asserts equal arity, compiles every
value expression, packs them into a tuple, duplicates, unpacks, and stores
each target in order. -/
def Compiler.compile_set (mt : Macros) (g : Globals) :
    Nat → Compiler → PyVal → PyVal → Except CompErr Compiler
  | 0, _, _, _ => .error .fuelOut
  | fuel + 1, c, vars, vals =>
    match vars with
    | .list vl => do
      let el ← seqItems vals
      if vl.length = el.length then do
        let c ← Compiler.compile_seq mt g fuel c el
        let c := c.emit "BUILD_TUPLE" el.length
        let c := c.emit "DUP_TOP" 0
        let c := c.emit "UNPACK_SEQUENCE" el.length
        .ok (vl.foldl Compiler.store_target c)
      else .error .assertionError
    | _ => do
      let c ← Compiler.compile mt g fuel c vals
      let c := c.emit "DUP_TOP" 0
      .ok (c.store_target vars)

/-- The source's compile_if: compile the condition, placeholder
POP_JUMP_IF_FALSE, compile the then branch, placeholder JUMP_FORWARD,
compile the else branch, then patch the false target to the else entry and
the forward jump to just past the else branch. -/
def Compiler.compile_if (mt : Macros) (g : Globals) :
    Nat → Compiler → PyVal → PyVal → PyVal → Except CompErr Compiler
  | 0, _, _, _, _ => .error .fuelOut
  | fuel + 1, c, cond, thn, els => do
    let c1 ← Compiler.compile mt g fuel c cond
    let c1 := c1.emit "POP_JUMP_IF_FALSE" 0
    let i := c1.bs.length - 1
    let c2 ← Compiler.compile mt g fuel c1 thn
    let c2 := c2.emit "JUMP_FORWARD" 0
    let j := c2.bs.length - 1
    let c3 ← Compiler.compile mt g fuel c2 els
    .ok { c3 with bs := (c3.bs.set i (j + 1)).set j (c3.bs.length - j - 1) }

/-- The source's compile_op: one argument compiles the argument and applies
the sign opcode if the operator is a sign (otherwise nothing more); a
foldable operator compiles the first two arguments, applies the opcode, then
folds the rest; a two-argument comparison compiles both and emits COMPARE_OP
with the operator's index in the host's cmp_op table; anything else (a
comparison at the wrong arity) silently compiles nothing. -/
def Compiler.compile_op (mt : Macros) (g : Globals) :
    Nat → Compiler → String → List PyVal → Except CompErr Compiler
  | 0, _, _, _ => .error .fuelOut
  | fuel + 1, c, op, args =>
    match args with
    | [a] => do
      let c ← Compiler.compile mt g fuel c a
      match unops.lookup op with
      | some u => .ok (c.emit u 0)
      | _ => .ok c
    | _ =>
      match binops.lookup op with
      | some b =>
        match args with
        | a0 :: a1 :: rest => do
          let c ← Compiler.compile mt g fuel c a0
          let c ← Compiler.compile mt g fuel c a1
          let c := c.emit b 0
          Compiler.compile_op_fold mt g fuel c b rest
        | _ => .error .indexError
      | _ =>
        if op ∈ cmp_op ∧ args.length = 2 then
          match args with
          | [a0, a1] => do
            let c ← Compiler.compile mt g fuel c a0
            let c ← Compiler.compile mt g fuel c a1
            .ok (c.emit "COMPARE_OP" (cmp_op.indexOf op))
          | _ => .error .indexError
        else .ok c

/-- The fold loop of compile_op: compile each remaining argument and apply
the operator again. -/
def Compiler.compile_op_fold (mt : Macros) (g : Globals) :
    Nat → Compiler → String → List PyVal → Except CompErr Compiler
  | 0, _, _, _ => .error .fuelOut
  | _ + 1, c, _, [] => .ok c
  | fuel + 1, c, b, a :: rest => do
    let c ← Compiler.compile mt g fuel c a
    Compiler.compile_op_fold mt g fuel (c.emit b 0) b rest

/-- The source's compile_funcall: compile the head as a value, each argument
left to right, then a fixed-arity CALL_FUNCTION. -/
def Compiler.compile_funcall (mt : Macros) (g : Globals) :
    Nat → Compiler → PyVal → List PyVal → Except CompErr Compiler
  | 0, _, _, _ => .error .fuelOut
  | fuel + 1, c, fn, args => do
    let c ← Compiler.compile mt g fuel c fn
    let c ← Compiler.compile_seq mt g fuel c args
    .ok (c.emit "CALL_FUNCTION" args.length)

/-- The source's compile_apply: compile the function expression and the
argument-list expression, then CALL_FUNCTION_EX (a spread call). -/
def Compiler.compile_apply (mt : Macros) (g : Globals) :
    Nat → Compiler → PyVal → PyVal → Except CompErr Compiler
  | 0, _, _, _ => .error .fuelOut
  | fuel + 1, c, fn, argsE => do
    let c ← Compiler.compile mt g fuel c fn
    let c ← Compiler.compile mt g fuel c argsE
    .ok (c.emit "CALL_FUNCTION_EX" 0)

/-- The source's compile_quasiquoted: an UnQuoted child is compiled (and so
evaluated at run time), a list is rebuilt element by element into a fresh
runtime list, anything else is embedded as a constant. -/
def Compiler.compile_quasiquoted (mt : Macros) (g : Globals) :
    Nat → Compiler → PyVal → Except CompErr Compiler
  | 0, _, _ => .error .fuelOut
  | fuel + 1, c, expr =>
    match expr with
    | .unquoted x => Compiler.compile mt g fuel c x
    | .list xs => do
      let c ← Compiler.compile_qq_list mt g fuel c xs
      .ok (c.emit "BUILD_LIST" xs.length)
    | _ => .ok (c.compile_const expr)

/-- The element loop of compile_quasiquoted over a list. -/
def Compiler.compile_qq_list (mt : Macros) (g : Globals) :
    Nat → Compiler → List PyVal → Except CompErr Compiler
  | 0, _, _ => .error .fuelOut
  | _ + 1, c, [] => .ok c
  | fuel + 1, c, x :: rest => do
    let c ← Compiler.compile_quasiquoted mt g fuel c x
    Compiler.compile_qq_list mt g fuel c rest

end

/-- The source's to_codestring: the byte stream with RETURN_VALUE appended. -/
def Compiler.to_codestring (c : Compiler) : List Nat :=
  c.bs ++ [opmap "RETURN_VALUE", 0]

/-- The source's to_code_object: argcount from the parameters, nlocals from
the locals table, varnames the locals table, plus the pools, the name and
the generator flag. -/
def Compiler.to_code_object (c : Compiler) : CodeObj :=
  .mk c.args.length c.arg_names.length c.to_codestring c.co_consts
    c.co_names c.arg_names c.name c.generator

/-- The source's to_func_object: a function value over the unit's code and
the ambient global environment. -/
def Compiler.to_func_object (c : Compiler) : PyVal :=
  .func c.to_code_object

/-- The source's lisp_compile, from an already parsed expression. -/
def lisp_compile (mt : Macros) (g : Globals) (fuel : Nat) (e : PyVal) :
    Except CompErr CodeObj :=
  (Compiler.compile mt g fuel Compiler.init e).map Compiler.to_code_object

/-- Errors of a whole compile-and-evaluate step. -/
inductive EvalErr where
  | cerr : CompErr → EvalErr
  | rerr : PyErr → EvalErr
  | timeout

/-- The source's lisp_eval on a parsed expression: compile, then dispatch on
the unit's kind.  An assignment evaluates the code, binds the result to the
name in the global environment and returns the value looked up from there; a
function binds the function object and falls off (returning None, modelled
as Option.none); a defmacro registers the transformer in the macro table and
falls off; anything else evaluates the code and returns the value. -/
def lisp_eval (mt : Macros) (g : Globals) (cFuel rFuel : Nat) (e : PyVal) :
    Except EvalErr (Globals × Macros × Option PyVal) := do
  let c ← (Compiler.compile mt g cFuel Compiler.init e).mapError EvalErr.cerr
  if c.kind = some "assignment" then
    match runCode c.to_code_object rFuel g with
    | .ok v g' =>
      let g2 := gUpdate g' (.str (pyStr c.name)) v
      .ok (g2, mt, gLookup g2 (.str (pyStr c.name)))
    | .err e => .error (.rerr e)
    | .timeout => .error .timeout
  else if c.kind = some "function" then
    .ok (gUpdate g (.str (pyStr c.name)) c.to_func_object, mt, Option.none)
  else if c.kind = some "macro" then
    .ok (g, mUpdate mt (pyStr c.name) c.to_code_object, Option.none)
  else
    match runCode c.to_code_object rFuel g with
    | .ok v g' => .ok (g', mt, some v)
    | .err e => .error (.rerr e)
    | .timeout => .error .timeout

/-! ### Proof infrastructure: the pools only grow, names stay deduplicated -/

/-- l₁ is an initial segment of l₂. -/
def ListPre (l₁ l₂ : List α) : Prop := ∃ t, l₂ = l₁ ++ t

theorem listPre_refl (l : List α) : ListPre l l := ⟨[], by simp⟩

theorem listPre_append (l t : List α) : ListPre l (l ++ t) := ⟨t, rfl⟩

theorem listPre_trans {a b c : List α} (h₁ : ListPre a b) (h₂ : ListPre b c) :
    ListPre a c := by
  obtain ⟨t₁, rfl⟩ := h₁
  obtain ⟨t₂, rfl⟩ := h₂
  exact ⟨t₁ ++ t₂, by simp⟩

theorem listPre_length {a b : List α} (h : ListPre a b) : a.length ≤ b.length := by
  obtain ⟨t, rfl⟩ := h
  simp

theorem listPre_get {a b : List α} (h : ListPre a b) {k : Nat}
    (hk : k < a.length) : b.get? k = a.get? k := by
  obtain ⟨t, rfl⟩ := h
  exact List.get?_append hk

theorem listPre_set {a : List α} : ∀ {b : List α} {i : Nat}, ListPre a b →
    a.length ≤ i → ∀ x, ListPre a (b.set i x) := by
  induction a with
  | nil => intro b i _ _ x; exact ⟨b.set i x, rfl⟩
  | cons hd tl ih =>
    intro b i h hi x
    obtain ⟨t, rfl⟩ := h
    match i, hi with
    | i + 1, hi =>
      have := ih (b := tl ++ t) (listPre_append tl t) (Nat.lt_succ_iff.mp hi) x
      obtain ⟨t', ht'⟩ := this
      exact ⟨t', by simpa [List.set] using congrArg (hd :: ·) ht'⟩

/-- The names pool holds no two Python-equal entries. -/
def NamesOk (c : Compiler) : Prop :=
  List.Pairwise (fun a b => pyEq a b = false) c.co_names

/-- What every compilation step preserves: the byte stream and the two pools
only grow at the end (patching only rewrites argument bytes beyond the
caller's frontier), and a deduplicated names pool stays deduplicated. -/
def Grows (c c' : Compiler) : Prop :=
  ListPre c.bs c'.bs ∧ ListPre c.co_consts c'.co_consts ∧
    ListPre c.co_names c'.co_names ∧ (NamesOk c → NamesOk c')

theorem grows_refl (c : Compiler) : Grows c c :=
  ⟨listPre_refl _, listPre_refl _, listPre_refl _, id⟩

theorem grows_trans {a b c : Compiler} (h₁ : Grows a b) (h₂ : Grows b c) :
    Grows a c :=
  ⟨listPre_trans h₁.1 h₂.1, listPre_trans h₁.2.1 h₂.2.1,
   listPre_trans h₁.2.2.1 h₂.2.2.1, fun h => h₂.2.2.2 (h₁.2.2.2 h)⟩

theorem grows_eta {a b : Compiler} (h₁ : a.bs = b.bs)
    (h₂ : a.co_consts = b.co_consts) (h₃ : a.co_names = b.co_names) :
    Grows a b := by
  refine ⟨?_, ?_, ?_, ?_⟩
  · rw [h₁]; exact listPre_refl _
  · rw [h₂]; exact listPre_refl _
  · rw [h₃]; exact listPre_refl _
  · intro h; unfold NamesOk at *; rw [← h₃]; exact h

theorem grows_emit (c : Compiler) (op : String) (arg : Nat) :
    Grows c (c.emit op arg) :=
  ⟨listPre_append _ _, listPre_refl _, listPre_refl _, id⟩

theorem pyIndex_none {l : List PyVal} {x : PyVal} (h : pyIndex l x = Option.none) :
    ∀ a ∈ l, pyEq a x = false := by
  intro a ha
  unfold pyIndex at h
  rcases List.findIdx?_eq_none_iff.mp h a ha |>.symm with h'
  simpa using h'.symm

theorem grows_add_name (c : Compiler) (n : PyVal) :
    Grows c (c.add_name n).1 := by
  unfold Compiler.add_name
  cases h : pyIndex c.co_names n with
  | some i => exact grows_refl c
  | none =>
    refine ⟨listPre_refl _, listPre_refl _, listPre_append _ _, ?_⟩
    intro hn
    unfold NamesOk at *
    refine List.pairwise_append.mpr ⟨hn, ?_, ?_⟩
    · exact List.pairwise_singleton _ _
    · intro a ha b hb
      simp only [List.mem_singleton] at hb
      subst hb
      exact pyIndex_none h a ha

theorem grows_add_arg_name (c : Compiler) (n : PyVal) :
    Grows c (c.add_arg_name n).1 := by
  unfold Compiler.add_arg_name
  cases h : pyIndex c.arg_names n with
  | some i => exact grows_refl c
  | none => exact grows_eta rfl rfl rfl

theorem grows_compile_const (c : Compiler) (v : PyVal) :
    Grows c (c.compile_const v) := by
  unfold Compiler.compile_const
  refine grows_trans (b := { c with co_consts := c.co_consts ++ [v] }) ?_ ?_
  · exact ⟨listPre_refl _, listPre_append _ _, listPre_refl _, id⟩
  · exact grows_emit _ _ _

theorem grows_compile_var (c : Compiler) (v : PyVal) :
    Grows c (c.compile_var v) := by
  unfold Compiler.compile_var
  cases h : pyIndex c.arg_names v with
  | some i => exact grows_emit _ _ _
  | none => exact grows_trans (grows_add_name c v) (grows_emit _ _ _)

theorem grows_store_target (c : Compiler) (v : PyVal) :
    Grows c (c.store_target v) := by
  unfold Compiler.store_target
  cases h : pyIndex c.args v with
  | some i => exact grows_emit _ _ _
  | none =>
    by_cases hk : c.kind = some "function"
    · rw [if_pos hk]
      rcases h1 : c.add_arg_name v with ⟨c', i⟩
      have hg : Grows c c' := by
        have h2 := grows_add_arg_name c v
        rw [h1] at h2
        exact h2
      simp only [h1]
      exact grows_trans hg (grows_emit c' "STORE_FAST" i)
    · rw [if_neg hk]
      rcases h1 : c.add_name v with ⟨c', i⟩
      have hg : Grows c c' := by
        have h2 := grows_add_name c v
        rw [h1] at h2
        exact h2
      simp only [h1]
      exact grows_trans hg (grows_emit c' "STORE_GLOBAL" i)

theorem grows_store_target_fold (vl : List PyVal) :
    ∀ c : Compiler, Grows c (vl.foldl Compiler.store_target c) := by
  induction vl with
  | nil => intro c; exact grows_refl c
  | cons v rest ih =>
    intro c
    exact grows_trans (grows_store_target c v) (ih _)

theorem grows_foldl {f : Compiler → PyVal → Compiler}
    (hf : ∀ c x, Grows c (f c x)) (l : List PyVal) :
    ∀ c, Grows c (l.foldl f c) := by
  induction l with
  | nil => intro c; exact grows_refl c
  | cons x r ih => intro c; exact grows_trans (hf c x) (ih _)

theorem grows_compile_dot (c : Compiler) (v : PyVal) (props : List PyVal) :
    Grows c (c.compile_dot v props) := by
  unfold Compiler.compile_dot
  refine grows_trans (grows_compile_var c v) (grows_foldl ?_ props _)
  intro c p
  rcases h1 : c.add_name p with ⟨c', i⟩
  have hg : Grows c c' := by
    have h2 := grows_add_name c p
    rw [h1] at h2
    exact h2
  simp only [h1]
  exact grows_trans hg (grows_emit c' "LOAD_ATTR" i)

theorem except_bind_ok {α β ε : Type} {x : Except ε α} {f : α → Except ε β}
    {b : β} : (x >>= f) = .ok b ↔ ∃ a, x = .ok a ∧ f a = .ok b := by
  cases x <;> simp [Bind.bind, Except.bind]

theorem emit_bs_len (c : Compiler) (op : String) (arg : Nat) :
    (c.emit op arg).bs.length = c.bs.length + 2 := by
  simp [Compiler.emit]

theorem grows_patch {a b : Compiler} (h : Grows a b) {i : Nat}
    (hi : a.bs.length ≤ i) (x : Nat) :
    Grows a { b with bs := b.bs.set i x } :=
  ⟨listPre_set h.1 hi x, h.2.1, h.2.2.1, h.2.2.2⟩

theorem grows_bs_le {a b : Compiler} (h : Grows a b) :
    a.bs.length ≤ b.bs.length := listPre_length h.1

theorem grows_compile_import (c : Compiler) (modules : List PyVal) :
    Grows c (c.compile_import modules) := by
  unfold Compiler.compile_import
  refine grows_trans (grows_foldl ?_ modules c) (grows_compile_const _ _)
  intro c m
  rcases h1 : ((c.compile_const (.int 0)).compile_const .none).add_name m with ⟨c1, i⟩
  rcases h2 : (c1.emit "IMPORT_NAME" i).add_name m with ⟨c2, j⟩
  have hg1 : Grows c c1 := by
    have h3 := grows_add_name ((c.compile_const (.int 0)).compile_const .none) m
    rw [h1] at h3
    exact grows_trans (grows_compile_const c (.int 0))
      (grows_trans (grows_compile_const _ .none) h3)
  have hg2 : Grows (c1.emit "IMPORT_NAME" i) c2 := by
    have h3 := grows_add_name (c1.emit "IMPORT_NAME" i) m
    rw [h2] at h3
    exact h3
  simp only [h1, h2]
  exact grows_trans hg1 (grows_trans (grows_emit c1 "IMPORT_NAME" i)
    (grows_trans hg2 (grows_emit c2 "STORE_GLOBAL" j)))

/-- Every compiler entry point only appends to the byte stream and the two
pools (back-patching rewrites only argument bytes beyond the entry state's
frontier) and preserves deduplication of the names pool.  Proved for all
thirteen mutually recursive compile functions at once by induction on the
fuel. -/
theorem compile_grows_all (mt : Macros) (g : Globals) : ∀ fuel : Nat,
    (∀ c e c', Compiler.compile mt g fuel c e = .ok c' → Grows c c') ∧
    (∀ c es c', Compiler.compile_seq mt g fuel c es = .ok c' → Grows c c') ∧
    (∀ c e c', Compiler.compile_return mt g fuel c e = .ok c' → Grows c c') ∧
    (∀ c e c', Compiler.compile_yield mt g fuel c e = .ok c' → Grows c c') ∧
    (∀ c e body c', Compiler.compile_while mt g fuel c e body = .ok c' → Grows c c') ∧
    (∀ c a b c', Compiler.compile_set mt g fuel c a b = .ok c' → Grows c c') ∧
    (∀ c a b d c', Compiler.compile_if mt g fuel c a b d = .ok c' → Grows c c') ∧
    (∀ c op args c', Compiler.compile_op mt g fuel c op args = .ok c' → Grows c c') ∧
    (∀ c bop args c', Compiler.compile_op_fold mt g fuel c bop args = .ok c' → Grows c c') ∧
    (∀ c fn args c', Compiler.compile_funcall mt g fuel c fn args = .ok c' → Grows c c') ∧
    (∀ c a b c', Compiler.compile_apply mt g fuel c a b = .ok c' → Grows c c') ∧
    (∀ c e c', Compiler.compile_quasiquoted mt g fuel c e = .ok c' → Grows c c') ∧
    (∀ c xs c', Compiler.compile_qq_list mt g fuel c xs = .ok c' → Grows c c') := by
  intro fuel
  induction fuel with
  | zero =>
    refine ⟨?_, ?_, ?_, ?_, ?_, ?_, ?_, ?_, ?_, ?_, ?_, ?_, ?_⟩
    · intro c e c' h; simp [Compiler.compile] at h
    · intro c es c' h; simp [Compiler.compile_seq] at h
    · intro c e c' h; simp [Compiler.compile_return] at h
    · intro c e c' h; simp [Compiler.compile_yield] at h
    · intro c e body c' h; simp [Compiler.compile_while] at h
    · intro c a b c' h; simp [Compiler.compile_set] at h
    · intro c a b d c' h; simp [Compiler.compile_if] at h
    · intro c op args c' h; simp [Compiler.compile_op] at h
    · intro c bop args c' h; simp [Compiler.compile_op_fold] at h
    · intro c fn args c' h; simp [Compiler.compile_funcall] at h
    · intro c a b c' h; simp [Compiler.compile_apply] at h
    · intro c e c' h; simp [Compiler.compile_quasiquoted] at h
    · intro c xs c' h; simp [Compiler.compile_qq_list] at h
  | succ fuel ih =>
    obtain ⟨ihc, ihseq, ihret, ihyld, ihwhl, ihset, ihif, ihop, ihopf, ihfun,
      ihapp, ihqq, ihqql⟩ := ih
    refine ⟨?_, ?_, ?_, ?_, ?_, ?_, ?_, ?_, ?_, ?_, ?_, ?_, ?_⟩
    · -- compile
      intro c e c' h
      unfold Compiler.compile at h
      split at h
      case _ items =>
        rw [except_bind_ok] at h
        obtain ⟨h0, hh0, h⟩ := h
        by_cases q1 : isHead h0 "def" = true
        case pos =>
          simp only [if_pos q1] at h
          rw [except_bind_ok] at h
          obtain ⟨spec, hspec, h⟩ := h
          split at h
          · rw [except_bind_ok] at h
            obtain ⟨np, hnp, h⟩ := h
            refine grows_trans ?_ (ihseq _ _ _ h)
            exact grows_eta rfl rfl rfl
          · refine grows_trans ?_ (ihseq _ _ _ h)
            exact grows_eta rfl rfl rfl
        simp only [if_neg q1] at h
        by_cases q2 : isHead h0 "defmacro" = true
        case pos =>
          simp only [if_pos q2] at h
          rw [except_bind_ok] at h
          obtain ⟨spec, hspec, h⟩ := h
          rw [except_bind_ok] at h
          obtain ⟨np, hnp, h⟩ := h
          rw [except_bind_ok] at h
          obtain ⟨e2, he2, h⟩ := h
          rw [except_bind_ok] at h
          obtain ⟨c2, hc2, h⟩ := h
          simp only [Except.ok.injEq] at h
          subst h
          refine grows_trans ?_ (grows_trans (ihc _ _ _ hc2) ?_)
          · exact grows_eta rfl rfl rfl
          · exact grows_eta rfl rfl rfl
        simp only [if_neg q2] at h
        by_cases q3 : isHead h0 "if" = true
        case pos =>
          simp only [if_pos q3] at h
          rw [except_bind_ok] at h
          obtain ⟨e1, he1, h⟩ := h
          rw [except_bind_ok] at h
          obtain ⟨e2, he2, h⟩ := h
          rw [except_bind_ok] at h
          obtain ⟨e3, he3, h⟩ := h
          exact ihif _ _ _ _ _ h
        simp only [if_neg q3] at h
        by_cases q4 : isHead h0 "apply" = true
        case pos =>
          simp only [if_pos q4] at h
          rw [except_bind_ok] at h
          obtain ⟨e1, he1, h⟩ := h
          rw [except_bind_ok] at h
          obtain ⟨e2, he2, h⟩ := h
          exact ihapp _ _ _ _ h
        simp only [if_neg q4] at h
        by_cases q5 : isHead h0 "." = true
        case pos =>
          simp only [if_pos q5] at h
          rw [except_bind_ok] at h
          obtain ⟨e1, he1, h⟩ := h
          simp only [Except.ok.injEq] at h
          subst h
          exact grows_compile_dot _ _ _
        simp only [if_neg q5] at h
        by_cases q6 : isHead h0 "import" = true
        case pos =>
          simp only [if_pos q6] at h
          simp only [Except.ok.injEq] at h
          subst h
          exact grows_compile_import _ _
        simp only [if_neg q6] at h
        by_cases q7 : isHead h0 "yield" = true
        case pos =>
          simp only [if_pos q7] at h
          rw [except_bind_ok] at h
          obtain ⟨e1, he1, h⟩ := h
          exact ihyld _ _ _ h
        simp only [if_neg q7] at h
        by_cases q8 : isHead h0 "=" = true
        case pos =>
          simp only [if_pos q8] at h
          rw [except_bind_ok] at h
          obtain ⟨e1, he1, h⟩ := h
          rw [except_bind_ok] at h
          obtain ⟨e2, he2, h⟩ := h
          exact ihset _ _ _ _ h
        simp only [if_neg q8] at h
        by_cases q9 : isHead h0 "while" = true
        case pos =>
          simp only [if_pos q9] at h
          rw [except_bind_ok] at h
          obtain ⟨e1, he1, h⟩ := h
          exact ihwhl _ _ _ _ h
        simp only [if_neg q9] at h
        by_cases q10 : isHead h0 "return" = true
        case pos =>
          simp only [if_pos q10] at h
          rw [except_bind_ok] at h
          obtain ⟨e1, he1, h⟩ := h
          exact ihret _ _ _ h
        simp only [if_neg q10] at h
        -- operator / macro probe / generic call
        split at h
        case _ s hs =>
          split at h
          · exact ihop _ _ _ _ h
          · split at h
            case _ co hco =>
              split at h
              · split at h
                case _ r g' hrun => exact ihc _ _ _ h
                case _ e hrun => exact absurd h (by simp)
                case _ hrun => exact absurd h (by simp)
              · exact absurd h (by simp)
            case _ hco => exact ihfun _ _ _ _ h
        case _ hs => exact ihfun _ _ _ _ h
      case _ x =>
        simp only [Except.ok.injEq] at h
        subst h
        exact grows_compile_const _ _
      case _ x => exact ihqq _ _ _ h
      case _ s =>
        simp only [Except.ok.injEq] at h
        subst h
        exact grows_compile_var _ _
      case _ =>
        simp only [Except.ok.injEq] at h
        subst h
        exact grows_compile_const _ _
    · -- compile_seq
      intro c es c' h
      match es with
      | [] =>
        simp only [Compiler.compile_seq, Except.ok.injEq] at h
        subst h
        exact grows_refl _
      | x :: rest =>
        simp only [Compiler.compile_seq] at h
        rw [except_bind_ok] at h
        obtain ⟨c1, hc1, h⟩ := h
        exact grows_trans (ihc _ _ _ hc1) (ihseq _ _ _ h)
    · -- compile_return
      intro c e c' h
      simp only [Compiler.compile_return] at h
      rw [except_bind_ok] at h
      obtain ⟨c1, hc1, h⟩ := h
      simp only [Except.ok.injEq] at h
      subst h
      exact grows_trans (ihc _ _ _ hc1) (grows_emit _ _ _)
    · -- compile_yield
      intro c e c' h
      simp only [Compiler.compile_yield] at h
      rw [except_bind_ok] at h
      obtain ⟨c1, hc1, h⟩ := h
      simp only [Except.ok.injEq] at h
      subst h
      refine grows_trans ?_ (grows_trans (ihc _ _ _ hc1) (grows_emit _ _ _))
      exact grows_eta rfl rfl rfl
    · -- compile_while
      intro c e body c' h
      simp only [Compiler.compile_while] at h
      rw [except_bind_ok] at h
      obtain ⟨c1, hc1, h⟩ := h
      rw [except_bind_ok] at h
      obtain ⟨c2, hc2, h⟩ := h
      simp only [Except.ok.injEq] at h
      subst h
      have g1 : Grows c c1 := ihc _ _ _ hc1
      have g2 : Grows (c1.emit "POP_JUMP_IF_FALSE" 0) c2 := ihseq _ _ _ hc2
      have hle : c.bs.length ≤ (c1.emit "POP_JUMP_IF_FALSE" 0).bs.length - 1 := by
        have := grows_bs_le g1
        rw [emit_bs_len]
        omega
      refine grows_trans ?_ (grows_compile_const _ _)
      refine grows_patch ?_ hle _
      exact grows_trans g1 (grows_trans (grows_emit _ _ _)
        (grows_trans g2 (grows_emit _ _ _)))
    · -- compile_set
      intro c a b c' h
      simp only [Compiler.compile_set] at h
      split at h
      case _ vl =>
        rw [except_bind_ok] at h
        obtain ⟨el, hel, h⟩ := h
        split at h
        · rw [except_bind_ok] at h
          obtain ⟨c1, hc1, h⟩ := h
          simp only [Except.ok.injEq] at h
          subst h
          refine grows_trans (ihseq _ _ _ hc1) ?_
          refine grows_trans ?_ (grows_store_target_fold vl _)
          exact grows_trans (grows_emit _ _ _)
            (grows_trans (grows_emit _ _ _) (grows_emit _ _ _))
        · exact absurd h (by simp)
      case _ =>
        rw [except_bind_ok] at h
        obtain ⟨c1, hc1, h⟩ := h
        simp only [Except.ok.injEq] at h
        subst h
        exact grows_trans (ihc _ _ _ hc1)
          (grows_trans (grows_emit _ _ _) (grows_store_target _ _))
    · -- compile_if
      intro c a b d c' h
      simp only [Compiler.compile_if] at h
      rw [except_bind_ok] at h
      obtain ⟨c1, hc1, h⟩ := h
      rw [except_bind_ok] at h
      obtain ⟨c2, hc2, h⟩ := h
      rw [except_bind_ok] at h
      obtain ⟨c3, hc3, h⟩ := h
      simp only [Except.ok.injEq] at h
      subst h
      have g1 : Grows c c1 := ihc _ _ _ hc1
      have g2 : Grows (c1.emit "POP_JUMP_IF_FALSE" 0) c2 := ihc _ _ _ hc2
      have g3 : Grows (c2.emit "JUMP_FORWARD" 0) c3 := ihc _ _ _ hc3
      have hall : Grows c c3 :=
        grows_trans g1 (grows_trans (grows_emit _ _ _)
          (grows_trans g2 (grows_trans (grows_emit _ _ _) g3)))
      have h1 : c.bs.length ≤ (c1.emit "POP_JUMP_IF_FALSE" 0).bs.length - 1 := by
        have := grows_bs_le g1
        rw [emit_bs_len]
        omega
      have h2 : c.bs.length ≤ (c2.emit "JUMP_FORWARD" 0).bs.length - 1 := by
        have ha := grows_bs_le g1
        have hb := grows_bs_le g2
        rw [emit_bs_len] at hb ⊢
        omega
      exact grows_patch (grows_patch hall h1 _) h2 _
    · -- compile_op
      intro c op args c' h
      simp only [Compiler.compile_op] at h
      split at h
      case _ a =>
        rw [except_bind_ok] at h
        obtain ⟨c1, hc1, h⟩ := h
        split at h
        · simp only [Except.ok.injEq] at h
          subst h
          exact grows_trans (ihc _ _ _ hc1) (grows_emit _ _ _)
        · simp only [Except.ok.injEq] at h
          subst h
          exact ihc _ _ _ hc1
      case _ =>
        split at h
        case _ b hb =>
          split at h
          case _ a0 a1 rest =>
            rw [except_bind_ok] at h
            obtain ⟨c1, hc1, h⟩ := h
            rw [except_bind_ok] at h
            obtain ⟨c2, hc2, h⟩ := h
            exact grows_trans (ihc _ _ _ hc1)
              (grows_trans (ihc _ _ _ hc2)
                (grows_trans (grows_emit _ _ _) (ihopf _ _ _ _ h)))
          case _ => exact absurd h (by simp)
        case _ hb =>
          split at h
          · split at h
            case _ a0 a1 =>
              rw [except_bind_ok] at h
              obtain ⟨c1, hc1, h⟩ := h
              rw [except_bind_ok] at h
              obtain ⟨c2, hc2, h⟩ := h
              simp only [Except.ok.injEq] at h
              subst h
              exact grows_trans (ihc _ _ _ hc1)
                (grows_trans (ihc _ _ _ hc2) (grows_emit _ _ _))
            case _ => exact absurd h (by simp)
          · simp only [Except.ok.injEq] at h
            subst h
            exact grows_refl _
    · -- compile_op_fold
      intro c bop args c' h
      match args with
      | [] =>
        simp only [Compiler.compile_op_fold, Except.ok.injEq] at h
        subst h
        exact grows_refl _
      | x :: rest =>
        simp only [Compiler.compile_op_fold] at h
        rw [except_bind_ok] at h
        obtain ⟨c1, hc1, h⟩ := h
        exact grows_trans (ihc _ _ _ hc1)
          (grows_trans (grows_emit _ _ _) (ihopf _ _ _ _ h))
    · -- compile_funcall
      intro c fn args c' h
      simp only [Compiler.compile_funcall] at h
      rw [except_bind_ok] at h
      obtain ⟨c1, hc1, h⟩ := h
      rw [except_bind_ok] at h
      obtain ⟨c2, hc2, h⟩ := h
      simp only [Except.ok.injEq] at h
      subst h
      exact grows_trans (ihc _ _ _ hc1)
        (grows_trans (ihseq _ _ _ hc2) (grows_emit _ _ _))
    · -- compile_apply
      intro c a b c' h
      simp only [Compiler.compile_apply] at h
      rw [except_bind_ok] at h
      obtain ⟨c1, hc1, h⟩ := h
      rw [except_bind_ok] at h
      obtain ⟨c2, hc2, h⟩ := h
      simp only [Except.ok.injEq] at h
      subst h
      exact grows_trans (ihc _ _ _ hc1)
        (grows_trans (ihc _ _ _ hc2) (grows_emit _ _ _))
    · -- compile_quasiquoted
      intro c e c' h
      simp only [Compiler.compile_quasiquoted] at h
      split at h
      case _ x => exact ihc _ _ _ h
      case _ xs =>
        rw [except_bind_ok] at h
        obtain ⟨c1, hc1, h⟩ := h
        simp only [Except.ok.injEq] at h
        subst h
        exact grows_trans (ihqql _ _ _ hc1) (grows_emit _ _ _)
      case _ =>
        simp only [Except.ok.injEq] at h
        subst h
        exact grows_compile_const _ _
    · -- compile_qq_list
      intro c xs c' h
      match xs with
      | [] =>
        simp only [Compiler.compile_qq_list, Except.ok.injEq] at h
        subst h
        exact grows_refl _
      | x :: rest =>
        simp only [Compiler.compile_qq_list] at h
        rw [except_bind_ok] at h
        obtain ⟨c1, hc1, h⟩ := h
        exact grows_trans (ihqq _ _ _ hc1) (ihqql _ _ _ h)

/-! ### Proof infrastructure: running emitted code windows -/

theorem runsTo_zero (co : CodeObj) (f : Frame) : RunsTo co 0 f f := rfl

theorem multiStep_succ_next {co : CodeObj} {f f₁ : Frame}
    (h : step co f = .next f₁) (n : Nat) :
    multiStep co (n + 1) f = multiStep co n f₁ := by
  conv_lhs => unfold multiStep
  rw [h]

theorem runToRet_succ_next {co : CodeObj} {f f₁ : Frame}
    (h : step co f = .next f₁) (n : Nat) :
    runToRet co (n + 1) f = runToRet co n f₁ := by
  conv_lhs => unfold runToRet
  rw [h]

theorem runsTo_one {co : CodeObj} {f f' : Frame} (h : step co f = .next f') :
    RunsTo co 1 f f' := by
  unfold RunsTo
  rw [multiStep_succ_next h 0]
  rfl

theorem runsTo_trans {co : CodeObj} {m n : Nat} {f f' f'' : Frame}
    (h₁ : RunsTo co m f f') (h₂ : RunsTo co n f' f'') :
    RunsTo co (m + n) f f'' := by
  induction m generalizing f with
  | zero =>
    unfold RunsTo multiStep at h₁
    cases h₁
    simpa using h₂
  | succ m ih =>
    unfold RunsTo multiStep at h₁
    cases hs : step co f with
    | next f₁ =>
      rw [hs] at h₁
      have harith : m + 1 + n = (m + n) + 1 := by omega
      unfold RunsTo
      rw [harith, multiStep_succ_next hs]
      exact ih h₁
    | ret v g => rw [hs] at h₁; cases h₁
    | err e => rw [hs] at h₁; cases h₁

theorem runToRet_of_runsTo {co : CodeObj} {n : Nat} {f f' : Frame}
    (h : RunsTo co n f f') (k : Nat) :
    runToRet co (n + k) f = runToRet co k f' := by
  induction n generalizing f with
  | zero =>
    unfold RunsTo multiStep at h
    cases h
    simp
  | succ n ih =>
    unfold RunsTo multiStep at h
    cases hs : step co f with
    | next f₁ =>
      rw [hs] at h
      have harith : n + 1 + k = (n + k) + 1 := by omega
      rw [harith, runToRet_succ_next hs]
      exact ih h
    | ret v g => rw [hs] at h; cases h
    | err e => rw [hs] at h; cases h

theorem step_load_const {co : CodeObj} {ip : Nat} {st : List PyVal}
    {l : List (Option PyVal)} {g : Globals} {k : Nat} {v : PyVal}
    (h1 : co.codestring.get? ip = some 100)
    (h2 : co.codestring.get? (ip + 1) = some k)
    (h3 : co.consts.get? k = some v) :
    step co ⟨ip, st, l, g⟩ = .next ⟨ip + 2, v :: st, l, g⟩ := by
  unfold step
  simp only [List.get?_eq_getElem?] at h1 h2 h3 ⊢
  simp only [h1, h2]
  norm_num
  simp only [h3]

theorem step_load_global {co : CodeObj} {ip : Nat} {st : List PyVal}
    {l : List (Option PyVal)} {g : Globals} {k : Nat} {key v : PyVal}
    (h1 : co.codestring.get? ip = some 116)
    (h2 : co.codestring.get? (ip + 1) = some k)
    (h3 : co.names.get? k = some key)
    (h4 : gLookup g key = some v) :
    step co ⟨ip, st, l, g⟩ = .next ⟨ip + 2, v :: st, l, g⟩ := by
  unfold step
  simp only [List.get?_eq_getElem?] at h1 h2 h3 ⊢
  simp only [h1, h2]
  norm_num
  simp only [h3, h4]

theorem step_compare_op {co : CodeObj} {ip : Nat} {st : List PyVal}
    {l : List (Option PyVal)} {g : Globals} {k : Nat} {a b w : PyVal}
    (h1 : co.codestring.get? ip = some 107)
    (h2 : co.codestring.get? (ip + 1) = some k)
    (h3 : compareOp k a b = .ok w) :
    step co ⟨ip, b :: a :: st, l, g⟩ = .next ⟨ip + 2, w :: st, l, g⟩ := by
  unfold step
  simp only [List.get?_eq_getElem?] at h1 h2 ⊢
  simp only [h1, h2]
  norm_num
  simp only [h3]

theorem step_pjif_true {co : CodeObj} {ip : Nat} {st : List PyVal}
    {l : List (Option PyVal)} {g : Globals} {k : Nat} {v : PyVal}
    (h1 : co.codestring.get? ip = some 114)
    (h2 : co.codestring.get? (ip + 1) = some k)
    (h3 : pyTruthy v = true) :
    step co ⟨ip, v :: st, l, g⟩ = .next ⟨ip + 2, st, l, g⟩ := by
  unfold step
  simp only [List.get?_eq_getElem?] at h1 h2 ⊢
  simp only [h1, h2]
  norm_num
  simp only [h3]
  norm_num

theorem step_pjif_false {co : CodeObj} {ip : Nat} {st : List PyVal}
    {l : List (Option PyVal)} {g : Globals} {k : Nat} {v : PyVal}
    (h1 : co.codestring.get? ip = some 114)
    (h2 : co.codestring.get? (ip + 1) = some k)
    (h3 : pyTruthy v = false) :
    step co ⟨ip, v :: st, l, g⟩ = .next ⟨k, st, l, g⟩ := by
  unfold step
  simp only [List.get?_eq_getElem?] at h1 h2 ⊢
  simp only [h1, h2]
  norm_num
  simp only [h3]
  norm_num

theorem step_jump_forward {co : CodeObj} {ip : Nat} {st : List PyVal}
    {l : List (Option PyVal)} {g : Globals} {k : Nat}
    (h1 : co.codestring.get? ip = some 110)
    (h2 : co.codestring.get? (ip + 1) = some k) :
    step co ⟨ip, st, l, g⟩ = .next ⟨ip + 2 + k, st, l, g⟩ := by
  unfold step
  simp only [List.get?_eq_getElem?] at h1 h2 ⊢
  simp only [h1, h2]
  norm_num

theorem step_build_list {co : CodeObj} {ip : Nat} {st : List PyVal}
    {l : List (Option PyVal)} {g : Globals} {k : Nat}
    (h1 : co.codestring.get? ip = some 103)
    (h2 : co.codestring.get? (ip + 1) = some k)
    (h3 : k ≤ st.length) :
    step co ⟨ip, st, l, g⟩ =
      .next ⟨ip + 2, .list (st.take k).reverse :: st.drop k, l, g⟩ := by
  unfold step
  simp only [List.get?_eq_getElem?] at h1 h2 ⊢
  simp only [h1, h2]
  norm_num
  simp [h3]

/-- The byte window of one compilation step inside a finished code object:
the object's code holds the step's bytes at their positions (later patching
never touches them), and the step's pools are initial segments of the
object's pools. -/
def Window (c c' : Compiler) (co : CodeObj) : Prop :=
  (∀ k, c.bs.length ≤ k → k < c'.bs.length →
    co.codestring.get? k = c'.bs.get? k) ∧
  ListPre c'.co_consts co.consts ∧ ListPre c'.co_names co.names

/-- The compilation step from c to c' produced code for a pure expression:
inside any finished code object that keeps the step's window intact, running
from the window's start pushes exactly the value v, touching neither the
locals nor the globals, and falls through to the window's end.  This is the
semantic interface the jump-patching proofs compose. -/
def EvalsTo (c c' : Compiler) (g : Globals) (v : PyVal) : Prop :=
  ∀ co, Window c c' co → ∀ st l, ∃ n,
    RunsTo co n ⟨c.bs.length, st, l, g⟩ ⟨c'.bs.length, v :: st, l, g⟩

theorem window_mono {c c₁ c₂ : Compiler} {co : CodeObj}
    (h1 : ListPre c₁.bs c₂.bs) (h2 : ListPre c₁.co_consts c₂.co_consts)
    (h3 : ListPre c₁.co_names c₂.co_names) (hw : Window c c₂ co) :
    Window c c₁ co := by
  refine ⟨?_, listPre_trans h2 hw.2.1, listPre_trans h3 hw.2.2⟩
  intro k hk1 hk2
  have hk3 : k < c₂.bs.length := Nat.lt_of_lt_of_le hk2 (listPre_length h1)
  rw [hw.1 k hk1 hk3]
  exact listPre_get h1 hk2

/-- compile_const always evaluates to its constant: the fresh pool slot is
read back out of the finished object's constant pool. -/
theorem evalsTo_const (c : Compiler) (g : Globals) (v : PyVal) :
    EvalsTo c (c.compile_const v) g v := by
  intro co hw st l
  refine ⟨1, runsTo_one ?_⟩
  have hlen : (c.compile_const v).bs.length = c.bs.length + 2 := by
    simp [Compiler.compile_const, Compiler.emit]
  have hbs : (c.compile_const v).bs = c.bs ++ [100, c.co_consts.length] := by
    simp [Compiler.compile_const, Compiler.emit, opmap]
  have h1 : co.codestring.get? c.bs.length = some 100 := by
    rw [hw.1 c.bs.length (Nat.le_refl _) (by omega), hbs]
    rw [List.get?_append_right (Nat.le_refl _)]
    simp
  have h2 : co.codestring.get? (c.bs.length + 1) = some c.co_consts.length := by
    rw [hw.1 (c.bs.length + 1) (by omega) (by omega), hbs]
    rw [List.get?_append_right (by omega)]
    simp
  have h3 : co.consts.get? c.co_consts.length = some v := by
    have hc : (c.compile_const v).co_consts = c.co_consts ++ [v] := by
      simp [Compiler.compile_const, Compiler.emit]
    have := listPre_get hw.2.1 (a := (c.compile_const v).co_consts)
      (k := c.co_consts.length) (by rw [hc]; simp)
    rw [this, hc, List.get?_append_right (Nat.le_refl _)]
    simp
  rw [hlen]
  exact step_load_const h1 h2 h3

/-- compile_var on a name that is neither a tracked local nor already pooled
evaluates to the value the global environment binds to that name (the fresh
pool slot then holds the name itself). -/
theorem evalsTo_var_global (c : Compiler) (g : Globals) (x v : PyVal)
    (hx : pyIndex c.arg_names x = Option.none)
    (hnx : pyIndex c.co_names x = Option.none)
    (hv : gLookup g x = some v) :
    EvalsTo c (c.compile_var x) g v := by
  intro co hw st l
  refine ⟨1, runsTo_one ?_⟩
  have hvar : c.compile_var x =
      ({ c with co_names := c.co_names ++ [x] }).emit "LOAD_GLOBAL" c.co_names.length := by
    unfold Compiler.compile_var Compiler.add_name
    rw [hx, hnx]
  have hbs : (c.compile_var x).bs = c.bs ++ [116, c.co_names.length] := by
    rw [hvar]
    simp [Compiler.emit, opmap]
  have hnames : (c.compile_var x).co_names = c.co_names ++ [x] := by
    rw [hvar]
    simp [Compiler.emit]
  have hlen : (c.compile_var x).bs.length = c.bs.length + 2 := by
    rw [hbs]
    simp
  have h1 : co.codestring.get? c.bs.length = some 116 := by
    rw [hw.1 c.bs.length (Nat.le_refl _) (by omega), hbs]
    rw [List.get?_append_right (Nat.le_refl _)]
    simp
  have h2 : co.codestring.get? (c.bs.length + 1) = some c.co_names.length := by
    rw [hw.1 (c.bs.length + 1) (by omega) (by omega), hbs]
    rw [List.get?_append_right (by omega)]
    simp
  have h3 : co.names.get? c.co_names.length = some x := by
    have := listPre_get hw.2.2 (k := c.co_names.length) (by rw [hnames]; simp)
    rw [this, hnames, List.get?_append_right (Nat.le_refl _)]
    simp
  rw [hlen]
  exact step_load_global h1 h2 h3 hv

/-- The state compile_if finishes in, given the states its three inner
compilations reach: both placeholder jump arguments are overwritten, the
false target with the else branch's entry offset and the forward jump with
the distance to just past the else branch. -/
def ifPatched (cs1 cs2 cs3 : Compiler) : Compiler :=
  let i := (cs1.emit "POP_JUMP_IF_FALSE" 0).bs.length - 1
  let j := (cs2.emit "JUMP_FORWARD" 0).bs.length - 1
  { cs3 with bs := (cs3.bs.set i (j + 1)).set j (cs3.bs.length - j - 1) }

/-- Correctness of compile_if's two-jump back-patching, for arbitrary
condition, then and else expressions: the compiled ternary first evaluates
the condition, then evaluates and yields the then value on a truthy
condition and the else value otherwise, and control lands exactly one past
the compiled form either way. -/
theorem compile_if_spec (mt : Macros) (g : Globals) (fuel : Nat)
    (cs cs1 cs2 cs3 : Compiler) (cond thn els : PyVal) (vc vt ve : PyVal)
    (hc : Compiler.compile mt g fuel cs cond = .ok cs1)
    (ht : Compiler.compile mt g fuel (cs1.emit "POP_JUMP_IF_FALSE" 0) thn = .ok cs2)
    (he : Compiler.compile mt g fuel (cs2.emit "JUMP_FORWARD" 0) els = .ok cs3)
    (hvc : EvalsTo cs cs1 g vc)
    (hvt : EvalsTo (cs1.emit "POP_JUMP_IF_FALSE" 0) cs2 g vt)
    (hve : EvalsTo (cs2.emit "JUMP_FORWARD" 0) cs3 g ve) :
    Compiler.compile_if mt g (fuel + 1) cs cond thn els = .ok (ifPatched cs1 cs2 cs3) ∧
    EvalsTo cs (ifPatched cs1 cs2 cs3) g (if pyTruthy vc then vt else ve) := by
  -- abbreviations for the frontier offsets
  have G1 : Grows cs cs1 := (compile_grows_all mt g fuel).1 _ _ _ hc
  have G2 : Grows (cs1.emit "POP_JUMP_IF_FALSE" 0) cs2 :=
    (compile_grows_all mt g fuel).1 _ _ _ ht
  have G3 : Grows (cs2.emit "JUMP_FORWARD" 0) cs3 :=
    (compile_grows_all mt g fuel).1 _ _ _ he
  have hp2 : (cs1.emit "POP_JUMP_IF_FALSE" 0).bs = cs1.bs ++ [114, 0] := by
    simp [Compiler.emit, opmap]
  have hq2 : (cs2.emit "JUMP_FORWARD" 0).bs = cs2.bs ++ [110, 0] := by
    simp [Compiler.emit, opmap]
  have hle1 : cs.bs.length ≤ cs1.bs.length := grows_bs_le G1
  have hle2 : cs1.bs.length + 2 ≤ cs2.bs.length := by
    have := grows_bs_le G2
    rw [emit_bs_len] at this
    omega
  have hle3 : cs2.bs.length + 2 ≤ cs3.bs.length := by
    have := grows_bs_le G3
    rw [emit_bs_len] at this
    omega
  have hpre12 : ListPre cs1.bs cs2.bs := by
    refine listPre_trans ?_ G2.1
    rw [hp2]
    exact listPre_append _ _
  have hpre23 : ListPre cs2.bs cs3.bs := by
    refine listPre_trans ?_ G3.1
    rw [hq2]
    exact listPre_append _ _
  have hpre13 : ListPre cs1.bs cs3.bs := listPre_trans hpre12 hpre23
  have hprep3 : ListPre (cs1.bs ++ [114, 0]) cs3.bs := by
    rw [← hp2]
    exact listPre_trans G2.1 hpre23
  have hpreq3 : ListPre (cs2.bs ++ [110, 0]) cs3.bs := by
    rw [← hq2]
    exact G3.1
  -- consts and names chains
  have hcpre : ListPre cs1.co_consts cs3.co_consts := by
    refine listPre_trans ?_ G3.2.1
    refine listPre_trans ?_ (listPre_refl _)
    exact listPre_trans G2.2.1 (listPre_refl _)
  have hnpre : ListPre cs1.co_names cs3.co_names :=
    listPre_trans G2.2.2.1 G3.2.2.1
  -- the patched state and its indices
  set i := (cs1.emit "POP_JUMP_IF_FALSE" 0).bs.length - 1 with hi
  set j := (cs2.emit "JUMP_FORWARD" 0).bs.length - 1 with hj
  have hiv : i = cs1.bs.length + 1 := by
    rw [hi, emit_bs_len]
    omega
  have hjv : j = cs2.bs.length + 1 := by
    rw [hj, emit_bs_len]
    omega
  have hlen' : (ifPatched cs1 cs2 cs3).bs.length = cs3.bs.length := by
    simp [ifPatched]
  have hbsP : (ifPatched cs1 cs2 cs3).bs =
      (cs3.bs.set i (j + 1)).set j (cs3.bs.length - j - 1) := rfl
  have hconstsP : (ifPatched cs1 cs2 cs3).co_consts = cs3.co_consts := rfl
  have hnamesP : (ifPatched cs1 cs2 cs3).co_names = cs3.co_names := rfl
  -- byte lookups in the patched stream
  have getP : ∀ k, k ≠ i → k ≠ j →
      (ifPatched cs1 cs2 cs3).bs.get? k = cs3.bs.get? k := by
    intro k hki hkj
    rw [hbsP, List.get?_set_ne _ _ (fun he' => hkj he'.symm),
      List.get?_set_ne _ _ (fun he' => hki he'.symm)]
  have getPi : (ifPatched cs1 cs2 cs3).bs.get? i = some (j + 1) := by
    rw [hbsP, List.get?_set_ne _ _ (by omega), List.get?_set_eq_of_lt]
    omega
  have getPj : (ifPatched cs1 cs2 cs3).bs.get? j =
      some (cs3.bs.length - j - 1) := by
    rw [hbsP, List.get?_set_eq_of_lt]
    rw [List.length_set]
    omega
  have getLow : ∀ k, k < cs1.bs.length →
      (ifPatched cs1 cs2 cs3).bs.get? k = cs1.bs.get? k := by
    intro k hk
    rw [getP k (by omega) (by omega)]
    exact listPre_get hpre13 hk
  have getOp1 : (ifPatched cs1 cs2 cs3).bs.get? cs1.bs.length = some 114 := by
    rw [getP _ (by omega) (by omega)]
    rw [listPre_get hprep3 (by simp)]
    rw [List.get?_append_right (Nat.le_refl _)]
    simp
  have getMid : ∀ k, cs1.bs.length + 2 ≤ k → k < cs2.bs.length →
      (ifPatched cs1 cs2 cs3).bs.get? k = cs2.bs.get? k := by
    intro k hk1 hk2
    rw [getP k (by omega) (by omega)]
    exact listPre_get hpre23 hk2
  have getOp2 : (ifPatched cs1 cs2 cs3).bs.get? cs2.bs.length = some 110 := by
    rw [getP _ (by omega) (by omega)]
    rw [listPre_get hpreq3 (by simp)]
    rw [List.get?_append_right (Nat.le_refl _)]
    simp
  have getHigh : ∀ k, cs2.bs.length + 2 ≤ k → k < cs3.bs.length →
      (ifPatched cs1 cs2 cs3).bs.get? k = cs3.bs.get? k := by
    intro k hk1 _
    exact getP k (by omega) (by omega)
  constructor
  · -- the compilation equation
    unfold Compiler.compile_if
    simp only [hc, ht, he, Bind.bind, Except.bind]
    rfl
  · -- the semantic statement
    intro co hw st l
    have hwin : ∀ k, cs.bs.length ≤ k → k < cs3.bs.length →
        co.codestring.get? k = (ifPatched cs1 cs2 cs3).bs.get? k := by
      intro k h1 h2
      exact hw.1 k h1 (by rw [hlen']; exact h2)
    have hwc : Window cs cs1 co := by
      refine ⟨?_, listPre_trans hcpre (hw.2.1), listPre_trans hnpre (hw.2.2)⟩
      intro k hk1 hk2
      rw [hwin k hk1 (by omega)]
      exact getLow k hk2
    have hwt : Window (cs1.emit "POP_JUMP_IF_FALSE" 0) cs2 co := by
      refine ⟨?_, listPre_trans G3.2.1 hw.2.1, listPre_trans G3.2.2.1 hw.2.2⟩
      intro k hk1 hk2
      rw [emit_bs_len] at hk1
      rw [hwin k (by omega) (by omega)]
      exact getMid k hk1 hk2
    have hwe : Window (cs2.emit "JUMP_FORWARD" 0) cs3 co := by
      refine ⟨?_, hw.2.1, hw.2.2⟩
      intro k hk1 hk2
      rw [emit_bs_len] at hk1
      rw [hwin k (by omega) hk2]
      exact getHigh k hk1 hk2
    obtain ⟨na, ra⟩ := hvc co hwc st l
    have hb114 : co.codestring.get? cs1.bs.length = some 114 := by
      rw [hwin _ (by omega) (by omega)]
      exact getOp1
    have hbarg : co.codestring.get? (cs1.bs.length + 1) = some (j + 1) := by
      rw [hwin _ (by omega) (by omega)]
      rw [← hiv]
      exact getPi
    cases hT : pyTruthy vc with
    | true =>
      -- condition, fall through into the then branch, jump past the else
      have s1 : step co ⟨cs1.bs.length, vc :: st, l, g⟩ =
          .next ⟨cs1.bs.length + 2, st, l, g⟩ :=
        step_pjif_true hb114 hbarg hT
      obtain ⟨nb, rb⟩ := hvt co hwt st l
      rw [emit_bs_len] at rb
      have hb110 : co.codestring.get? cs2.bs.length = some 110 := by
        rw [hwin _ (by omega) (by omega)]
        exact getOp2
      have hbarg2 : co.codestring.get? (cs2.bs.length + 1) =
          some (cs3.bs.length - j - 1) := by
        rw [hwin _ (by omega) (by omega)]
        rw [← hjv]
        exact getPj
      have s2 : step co ⟨cs2.bs.length, vt :: st, l, g⟩ =
          .next ⟨cs2.bs.length + 2 + (cs3.bs.length - j - 1), vt :: st, l, g⟩ :=
        step_jump_forward hb110 hbarg2
      have harr : cs2.bs.length + 2 + (cs3.bs.length - j - 1) =
          cs3.bs.length := by
        omega
      rw [harr] at s2
      refine ⟨na + 1 + nb + 1, ?_⟩
      have r1 := runsTo_trans ra (runsTo_one s1)
      have r2 := runsTo_trans r1 rb
      have r3 := runsTo_trans r2 (runsTo_one s2)
      rw [hlen']
      simpa using r3
    | false =>
      have s1 : step co ⟨cs1.bs.length, vc :: st, l, g⟩ =
          .next ⟨j + 1, st, l, g⟩ :=
        step_pjif_false hb114 hbarg hT
      obtain ⟨nc, rc⟩ := hve co hwe st l
      rw [emit_bs_len] at rc
      have hjq : j + 1 = cs2.bs.length + 2 := by omega
      rw [hjq] at s1
      refine ⟨na + 1 + nc, ?_⟩
      have r1 := runsTo_trans ra (runsTo_one s1)
      have r2 := runsTo_trans r1 rc
      rw [hlen']
      simpa using r2

/-! ### The claims -/

/-- C9: for every raw token the atom classifier tries, in order and falling
through on failure, integer parse, floating-point parse,
double-quote-delimited string with the delimiters stripped, dotted path
(contains a dot and is not numeric, split on the dot), and finally an
interned Symbol; in particular 3.14 classifies as the float 314/100 (the
value 157/50), a.b as the dotted path ['.', 'a', 'b'], and the
all-punctuation tokens + and <= as Symbols, with both numeric parses
failing cleanly on them. -/
theorem C9_atom_classifier :
    (∀ tok n, pyIntParse tok = some n → atom tok = .int n) ∧
    (∀ tok f, pyIntParse tok = Option.none → pyFloatParse tok = some f →
      atom tok = .float f) ∧
    (∀ tok, pyIntParse tok = Option.none → pyFloatParse tok = Option.none →
      tok.toList.head? = some '"' → tok.toList.getLast? = some '"' →
      atom tok = .str (String.mk (tok.toList.drop 1).dropLast)) ∧
    (∀ tok, pyIntParse tok = Option.none → pyFloatParse tok = Option.none →
      ¬(tok.toList.head? = some '"' ∧ tok.toList.getLast? = some '"') →
      tok.toList.contains '.' = true →
      atom tok = .list (.str "." ::
        (splitOnChar '.' tok.toList).map (fun l => .str (String.mk l)))) ∧
    (∀ tok, pyIntParse tok = Option.none → pyFloatParse tok = Option.none →
      ¬(tok.toList.head? = some '"' ∧ tok.toList.getLast? = some '"') →
      tok.toList.contains '.' = false →
      atom tok = .sym tok) ∧
    atom "3.14" = .float (.finite ⟨314, 100⟩) ∧
    Frac.eq ⟨314, 100⟩ ⟨157, 50⟩ = true ∧
    atom "a.b" = .list [.str ".", .str "a", .str "b"] ∧
    atom "+" = .sym "+" ∧ atom "<=" = .sym "<=" ∧
    pyIntParse "+" = Option.none ∧ pyFloatParse "+" = Option.none ∧
    pyIntParse "<=" = Option.none ∧ pyFloatParse "<=" = Option.none := by
  refine ⟨?_, ?_, ?_, ?_, ?_, rfl, rfl, rfl, rfl, rfl, rfl, rfl, rfl, rfl⟩
  · intro tok n h
    unfold atom
    rw [h]
  · intro tok f h1 h2
    unfold atom
    rw [h1, h2]
  · intro tok h1 h2 h3 h4
    unfold atom
    rw [h1, h2]
    rw [if_pos ⟨h3, h4⟩]
  · intro tok h1 h2 h3 h4
    unfold atom
    rw [h1, h2]
    rw [if_neg h3]
    rw [if_pos h4]
  · intro tok h1 h2 h3 h4
    unfold atom
    rw [h1, h2]
    rw [if_neg h3]
    rw [if_neg (fun hcon => Bool.noConfusion (h4 ▸ hcon))]

/-- C5 counterexample: the constants pool is not deduplicated by value; the
operator form (+ 1 1) pools the constant 1 twice, and the two entries are
Python-equal.  (The claim asserts no two entries of co_consts are equal
values.) -/
theorem C5_consts_not_deduplicated :
    (Compiler.compile [] initialGlobals 9 Compiler.init
        (.list [.sym "+", .int 1, .int 1])).map Compiler.co_consts =
      .ok [.int 1, .int 1] ∧
    pyEq (.int 1) (.int 1) = true := ⟨rfl, rfl⟩

/-- C6 counterexample: compiling (def (f a a) a) with a duplicated
parameter symbol succeeds (it does not fail, as the claim asserts): the unit
becomes an ordinary function whose parameter list and seeded locals table
both carry the symbol a twice. -/
theorem C6_duplicate_params_accepted :
    (Compiler.compile [] initialGlobals 9 Compiler.init
        (.list [.sym "def", .list [.sym "f", .sym "a", .sym "a"], .sym "a"])).map
        (fun c => (c.kind, c.args, c.arg_names)) =
      .ok (some "function", [.sym "a", .sym "a"], [.sym "a", .sym "a"]) := rfl

/-- C8 counterexample: (defmacro (m a) a 7) does not extract its unit the
way function def does.  The defmacro branch leaves the locals table empty
(kind macro, arg_names [], so the body a compiles to LOAD_GLOBAL, bytes
[116, 0]) and compiles only the first body expression (the constant 7 never
reaches the pool), while (def (m a) a 7) seeds arg_names with the
parameter, compiles a to LOAD_FAST ([124, 0]) and also compiles 7
([100, 0] with 7 pooled). -/
theorem C8_defmacro_not_identical_to_def :
    (Compiler.compile [] initialGlobals 9 Compiler.init
        (.list [.sym "defmacro", .list [.sym "m", .sym "a"], .sym "a", .int 7])).map
        (fun c => (c.kind, c.arg_names, c.co_consts, c.bs)) =
      .ok (some "macro", [], [], [116, 0]) ∧
    (Compiler.compile [] initialGlobals 9 Compiler.init
        (.list [.sym "def", .list [.sym "m", .sym "a"], .sym "a", .int 7])).map
        (fun c => (c.kind, c.arg_names, c.co_consts, c.bs)) =
      .ok (some "function", [.sym "a"], [.int 7], [124, 0, 100, 0]) := ⟨rfl, rfl⟩

/-- C7 counterexample: inside the function (def (f a) (= (b c) (1 2))) the
destructuring targets b and c are neither parameters nor already-tracked
locals when their stores are emitted (the locals table holds only a), yet
the compiler emits STORE_FAST (opcode 125) for both, not STORE_GLOBAL
(opcode 97) as the claim's per-target rule requires, and tracks them as new
locals. -/
theorem C7_fresh_function_targets_store_fast :
    (Compiler.compile [] initialGlobals 9 Compiler.init
        (.list [.sym "def", .list [.sym "f", .sym "a"],
          .list [.sym "=", .list [.sym "b", .sym "c"],
            .list [.int 1, .int 2]]])).map
        (fun c => (c.args, c.arg_names, c.bs)) =
      .ok ([.sym "a"], [.sym "a", .sym "b", .sym "c"],
        [100, 0, 100, 1, 102, 2, 4, 0, 92, 2, 125, 1, 125, 2]) ∧
    pyIndex [.sym "a"] (.sym "b") = Option.none ∧
    pyIndex [.sym "a"] (.sym "c") = Option.none := ⟨rfl, rfl, rfl⟩

/-- C4 counterexample: a lone close-paren token is unbalanced parentheses
(zero opening, one closing token), yet top-level parse does not raise: the
token falls through to the atom classifier and parses as the Symbol ")". -/
theorem C4_unbalanced_close_paren_accepted :
    parse [")"] = .ok (.sym ")") ∧
    [")"].count "(" = 0 ∧ [")"].count ")" = 1 := ⟨rfl, rfl, rfl⟩

/-- Looking up a str key right after storing under it finds the stored
value (Python's ==-keyed dict lookup after assignment). -/
theorem gLookup_gUpdate_str (g : Globals) (s : String) (v : PyVal) :
    gLookup (gUpdate g (.str s) v) (.str s) = some v := by
  induction g with
  | nil => simp [gUpdate, gLookup, pyEq]
  | cons p t ih =>
    obtain ⟨k, w⟩ := p
    unfold gUpdate
    by_cases h : pyEq k (.str s) = true
    · rw [if_pos h]
      unfold gLookup
      rw [if_pos h]
    · rw [if_neg h]
      unfold gLookup
      rw [if_neg h]
      exact ih

/-- C5 (amended): both pools are ordered (every compilation step only
appends; back-patching rewrites bytes, not pool entries) and the names pool
is deduplicated by Python equality, an invariant every compilation step
preserves; the constants pool, however, is not deduplicated: compile_const
appends unconditionally, and compiling (+ 1 1) pools the constant 1 twice. -/
theorem C5_pools_ordered_names_deduplicated :
    (∀ (mt : Macros) (g : Globals) (fuel : Nat) (c : Compiler) (e : PyVal)
      (c' : Compiler), Compiler.compile mt g fuel c e = .ok c' →
      ListPre c.co_consts c'.co_consts ∧ ListPre c.co_names c'.co_names ∧
      (NamesOk c → NamesOk c')) ∧
    (∀ (c : Compiler) (n : PyVal), NamesOk c → NamesOk (c.add_name n).1) ∧
    (∀ (c : Compiler) (v : PyVal),
      (c.compile_const v).co_consts = c.co_consts ++ [v]) ∧
    (Compiler.compile [] initialGlobals 9 Compiler.init
        (.list [.sym "+", .int 1, .int 1])).map Compiler.co_consts =
      .ok [.int 1, .int 1] := by
  refine ⟨?_, ?_, ?_, rfl⟩
  · intro mt g fuel c e c' h
    have hg := (compile_grows_all mt g fuel).1 c e c' h
    exact ⟨hg.2.1, hg.2.2.1, hg.2.2.2⟩
  · intro c n h
    exact (grows_add_name c n).2.2.2 h
  · intro c v
    rfl

/-- C5 witness: the names invariant instantiated on a concrete compilation
from the fresh compiler state. -/
theorem C5_pools_witness :
    NamesOk ((Compiler.compile [] initialGlobals 9 Compiler.init
      (.list [.sym "+", .int 1, .int 1])).toOption.getD Compiler.init) := by
  have h := C5_pools_ordered_names_deduplicated.1 [] initialGlobals 9
    Compiler.init (.list [.sym "+", .int 1, .int 1]) _ rfl
  exact h.2.2 List.Pairwise.nil

/-- C6 (amended): compiling (def (f p1 ... pn) body...) does not reject
duplicate parameter symbols: for every parameter list, duplicates included,
the def branch seeds the name, the parameter list and the locals table
(arg_names starts as a copy of the parameters) and compiles the body in
that unit; in particular the duplicated-parameter definition
(def (f a a) a) compiles to a function unit whose code object has argcount
2 and varnames [a, a]. -/
theorem C6_def_params_seeded :
    (∀ (mt : Macros) (g : Globals) (fuel : Nat) (c : Compiler) (nm : PyVal)
      (params body : List PyVal),
      Compiler.compile mt g (fuel + 1) c
          (.list (.sym "def" :: .list (nm :: params) :: body)) =
        Compiler.compile_seq mt g fuel
          ⟨c.co_consts, c.co_names, c.bs, nm, params, params,
            some "function", c.generator⟩ body) ∧
    (Compiler.compile [] initialGlobals 9 Compiler.init
        (.list [.sym "def", .list [.sym "f", .sym "a", .sym "a"], .sym "a"])).map
        (fun c => (c.to_code_object.argcount, c.to_code_object.varnames)) =
      .ok (2, [.sym "a", .sym "a"]) := by
  refine ⟨?_, rfl⟩
  intro mt g fuel c nm params body
  rfl

/-- C7 (amended): the destructuring assignment (= (v1 ... vn) (e1 ... em))
fails at compile time (the arity assert) when n and m differ; with equal
arity it compiles every value expression in order, then BUILD_TUPLE,
DUP_TOP and UNPACK_SEQUENCE of that arity, then one store per target in
order.  The per-target rule is: a parameter stores fast to its slot; any
other target stores fast as a fresh tracked local whenever the unit is a
function (not only when already tracked); otherwise the store is global.
At top level (= (x y) (1 2)) evaluates both expressions, binds x to 1 and
y to 2 globally and leaves the duplicated tuple as the statement's value. -/
theorem C7_destructuring :
    (∀ (mt : Macros) (g : Globals) (fuel : Nat) (c : Compiler)
      (vl el : List PyVal), vl.length ≠ el.length →
      Compiler.compile_set mt g (fuel + 1) c (.list vl) (.list el) =
        .error .assertionError) ∧
    (∀ (mt : Macros) (g : Globals) (fuel : Nat) (c : Compiler)
      (vl el : List PyVal) (c₁ : Compiler), vl.length = el.length →
      Compiler.compile_seq mt g fuel c el = .ok c₁ →
      Compiler.compile_set mt g (fuel + 1) c (.list vl) (.list el) =
        .ok (vl.foldl Compiler.store_target
          (((c₁.emit "BUILD_TUPLE" el.length).emit "DUP_TOP" 0).emit
            "UNPACK_SEQUENCE" el.length))) ∧
    (∀ (c : Compiler) (var : PyVal) (i : Nat), pyIndex c.args var = some i →
      c.store_target var = c.emit "STORE_FAST" i) ∧
    (∀ (c : Compiler) (var : PyVal), pyIndex c.args var = Option.none →
      c.kind = some "function" →
      c.store_target var =
        (c.add_arg_name var).1.emit "STORE_FAST" (c.add_arg_name var).2) ∧
    (∀ (c : Compiler) (var : PyVal), pyIndex c.args var = Option.none →
      ¬ c.kind = some "function" →
      c.store_target var =
        (c.add_name var).1.emit "STORE_GLOBAL" (c.add_name var).2) ∧
    (lisp_eval [] initialGlobals 20 200
        (.list [.sym "=", .list [.sym "x", .sym "y"],
          .list [.int 1, .int 2]])).toOption.map
        (fun r => (r.2.2, gLookup r.1 (.sym "x"), gLookup r.1 (.sym "y"))) =
      some (some (.tuple [.int 1, .int 2]), some (.int 1), some (.int 2)) := by
  refine ⟨?_, ?_, ?_, ?_, ?_, rfl⟩
  · intro mt g fuel c vl el h
    unfold Compiler.compile_set
    simp only [seqItems, Bind.bind, Except.bind]
    exact if_neg h
  · intro mt g fuel c vl el c₁ h hc1
    unfold Compiler.compile_set
    simp only [seqItems, Bind.bind, Except.bind]
    rw [if_pos h, hc1]
  · intro c var i h
    unfold Compiler.store_target
    rw [h]
  · intro c var h hk
    unfold Compiler.store_target
    rw [h]
    rw [if_pos hk]
  · intro c var h hk
    unfold Compiler.store_target
    rw [h]
    rw [if_neg hk]

/-- C7 witness: the arity assert and the equal-arity emission instantiated
at concrete forms. -/
theorem C7_destructuring_witness :
    Compiler.compile_set [] initialGlobals 9 Compiler.init
        (.list [.sym "x", .sym "y"]) (.list [.int 1]) =
      .error .assertionError ∧
    Compiler.compile_set [] initialGlobals 9 Compiler.init
        (.list [.sym "x", .sym "y"]) (.list [.int 1, .int 2]) =
      .ok ([PyVal.sym "x", PyVal.sym "y"].foldl Compiler.store_target
        (((((Compiler.compile_seq [] initialGlobals 8 Compiler.init
            [.int 1, .int 2]).toOption.getD Compiler.init).emit
          "BUILD_TUPLE" 2).emit "DUP_TOP" 0).emit "UNPACK_SEQUENCE" 2)) := by
  constructor
  · exact C7_destructuring.1 [] initialGlobals 8 Compiler.init
      [.sym "x", .sym "y"] [.int 1] (by decide)
  · exact C7_destructuring.2.1 [] initialGlobals 8 Compiler.init
      [.sym "x", .sym "y"] [.int 1, .int 2] _ (by decide) rfl

/-- Helper: lisp_eval on a unit of kind assignment evaluates the code,
binds the value globally under the unit's name and returns the value it
looks back up from the environment. -/
theorem lisp_eval_assignment_case (mt : Macros) (g : Globals) (cf rf : Nat)
    (e : PyVal) (c : Compiler) (v : PyVal) (g' : Globals)
    (h : Compiler.compile mt g cf Compiler.init e = .ok c)
    (hk : c.kind = some "assignment")
    (hrun : runCode c.to_code_object rf g = .ok v g') :
    lisp_eval mt g cf rf e =
      .ok (gUpdate g' (.str (pyStr c.name)) v, mt, some v) := by
  unfold lisp_eval
  rw [h]
  simp only [Except.mapError, Bind.bind, Except.bind]
  rw [if_pos hk, hrun]
  simp only [gLookup_gUpdate_str]

/-- Helper: lisp_eval on a function unit binds the function object globally
and returns no value. -/
theorem lisp_eval_function_case (mt : Macros) (g : Globals) (cf rf : Nat)
    (e : PyVal) (c : Compiler)
    (h : Compiler.compile mt g cf Compiler.init e = .ok c)
    (hk : c.kind = some "function") :
    lisp_eval mt g cf rf e =
      .ok (gUpdate g (.str (pyStr c.name)) c.to_func_object, mt,
        Option.none) := by
  unfold lisp_eval
  rw [h]
  simp only [Except.mapError, Bind.bind, Except.bind]
  rw [if_neg (by rw [hk]; simp), if_pos hk]

/-- Helper: lisp_eval on a defmacro unit registers the transformer in the
macro table, leaves the global environment alone and returns no value. -/
theorem lisp_eval_macro_case (mt : Macros) (g : Globals) (cf rf : Nat)
    (e : PyVal) (c : Compiler)
    (h : Compiler.compile mt g cf Compiler.init e = .ok c)
    (hk : c.kind = some "macro") :
    lisp_eval mt g cf rf e =
      .ok (g, mUpdate mt (pyStr c.name) c.to_code_object, Option.none) := by
  unfold lisp_eval
  rw [h]
  simp only [Except.mapError, Bind.bind, Except.bind]
  rw [if_neg (by rw [hk]; simp), if_neg (by rw [hk]; simp), if_pos hk]

/-- Helper: lisp_eval on a bare top-level expression evaluates the code and
returns the value. -/
theorem lisp_eval_toplevel_case (mt : Macros) (g : Globals) (cf rf : Nat)
    (e : PyVal) (c : Compiler) (v : PyVal) (g' : Globals)
    (h : Compiler.compile mt g cf Compiler.init e = .ok c)
    (hk : c.kind = Option.none)
    (hrun : runCode c.to_code_object rf g = .ok v g') :
    lisp_eval mt g cf rf e = .ok (g', mt, some v) := by
  unfold lisp_eval
  rw [h]
  simp only [Except.mapError, Bind.bind, Except.bind]
  rw [if_neg (by rw [hk]; simp), if_neg (by rw [hk]; simp),
    if_neg (by rw [hk]; simp), hrun]

/-- C10: lisp_eval's return value depends on the compiled unit's kind: an
assignment evaluates the code and returns the value just bound to the name
(looked up from the updated environment); a bare top-level expression
returns the evaluated value; a function definition installs the callable
into the global environment and returns no value; a macro definition
installs the callable into the macro table and returns no value. -/
theorem C10_lisp_eval_kinds (mt : Macros) (g : Globals) (cf rf : Nat)
    (e : PyVal) (c : Compiler)
    (h : Compiler.compile mt g cf Compiler.init e = .ok c) :
    (c.kind = some "assignment" → ∀ (v : PyVal) (g' : Globals),
      runCode c.to_code_object rf g = .ok v g' →
      lisp_eval mt g cf rf e =
        .ok (gUpdate g' (.str (pyStr c.name)) v, mt, some v)) ∧
    (c.kind = some "function" →
      lisp_eval mt g cf rf e =
        .ok (gUpdate g (.str (pyStr c.name)) c.to_func_object, mt,
          Option.none)) ∧
    (c.kind = some "macro" →
      lisp_eval mt g cf rf e =
        .ok (g, mUpdate mt (pyStr c.name) c.to_code_object, Option.none)) ∧
    (c.kind = Option.none → ∀ (v : PyVal) (g' : Globals),
      runCode c.to_code_object rf g = .ok v g' →
      lisp_eval mt g cf rf e = .ok (g', mt, some v)) := by
  refine ⟨?_, ?_, ?_, ?_⟩
  · intro hk v g' hrun
    exact lisp_eval_assignment_case mt g cf rf e c v g' h hk hrun
  · intro hk
    exact lisp_eval_function_case mt g cf rf e c h hk
  · intro hk
    exact lisp_eval_macro_case mt g cf rf e c h hk
  · intro hk v g' hrun
    exact lisp_eval_toplevel_case mt g cf rf e c v g' h hk hrun

/-- C10 witness: the four kinds exercised on concrete inputs: the
assignment (def x 5) returns the bound 5, the function definition
(def (f a) a) and the macro definition (defmacro (m a) a) return no value
and install into the environment and the macro table respectively, and the
bare expression 7 returns 7. -/
theorem C10_lisp_eval_kinds_witness :
    lisp_eval [] initialGlobals 9 9
        (.list [.sym "def", .sym "x", .int 5]) =
      .ok (gUpdate initialGlobals (.str "x") (.int 5), [], some (.int 5)) ∧
    (∃ c : Compiler,
      Compiler.compile [] initialGlobals 9 Compiler.init
          (.list [.sym "def", .list [.sym "f", .sym "a"], .sym "a"]) =
        .ok c ∧
      lisp_eval [] initialGlobals 9 9
          (.list [.sym "def", .list [.sym "f", .sym "a"], .sym "a"]) =
        .ok (gUpdate initialGlobals (.str "f") c.to_func_object, [],
          Option.none)) ∧
    (∃ c : Compiler,
      Compiler.compile [] initialGlobals 9 Compiler.init
          (.list [.sym "defmacro", .list [.sym "m", .sym "a"], .sym "a"]) =
        .ok c ∧
      lisp_eval [] initialGlobals 9 9
          (.list [.sym "defmacro", .list [.sym "m", .sym "a"], .sym "a"]) =
        .ok (initialGlobals, [("m", c.to_code_object)], Option.none)) ∧
    lisp_eval [] initialGlobals 9 9 (.int 7) =
      .ok (initialGlobals, [], some (.int 7)) := by
  refine ⟨?_, ⟨_, rfl, ?_⟩, ⟨_, rfl, ?_⟩, ?_⟩
  · exact (C10_lisp_eval_kinds [] initialGlobals 9 9
      (.list [.sym "def", .sym "x", .int 5]) _ rfl).1 rfl
      (.int 5) initialGlobals rfl
  · exact (C10_lisp_eval_kinds [] initialGlobals 9 9
      (.list [.sym "def", .list [.sym "f", .sym "a"], .sym "a"]) _ rfl).2.1 rfl
  · exact (C10_lisp_eval_kinds [] initialGlobals 9 9
      (.list [.sym "defmacro", .list [.sym "m", .sym "a"], .sym "a"]) _
      rfl).2.2.1 rfl
  · exact (C10_lisp_eval_kinds [] initialGlobals 9 9 (.int 7) _ rfl).2.2.2 rfl
      (.int 7) initialGlobals rfl

/-- C2: the reduction semantics of the five operators.  On integer
arguments the built-in functions satisfy: lisp_add sums all arguments
(Python's sum folds + from 0), unary lisp_sub negates and the n-ary form
left-folds subtraction from the first two arguments, unary lisp_div and
lisp_mod return their argument unchanged; but every call of lisp_mul
raises NameError, because its body uses reduce, which the module never
imports (Python 3 has no reduce builtin) — the claimed left-fold of
multiplication for the built-in value is unreachable.  The operator
compiler path does satisfy all five examples: (+ 1 2 3) is 6, (- 10 3 2)
is 5, (- 7) is -7, (* 2 3 4) is 24, (/ 100 2 5) is the float 100/10,
Python-equal to 10.  Calling the builtin via apply shows the divergence:
(apply + (quote (1 2 3))) is 6 while (apply * (quote (2 3 4))) raises
NameError instead of the claimed 24. -/
theorem C2_arith_operators :
    (∀ l : List Int, lisp_add (l.map .int) = .ok (.int (l.foldl (· + ·) 0))) ∧
    (∀ a : Int, lisp_sub [.int a] = .ok (.int (-a))) ∧
    (∀ (a b : Int) (l : List Int),
      lisp_sub ((a :: b :: l).map .int) =
        .ok (.int (l.foldl (· - ·) (a - b)))) ∧
    (∀ v : PyVal, lisp_div [v] = .ok v) ∧
    (∀ v : PyVal, lisp_mod [v] = .ok v) ∧
    (∀ args : List PyVal, lisp_mul args = .error .nameError) ∧
    parse ["(", "+", "1", "2", "3", ")"] =
      .ok (.list [.sym "+", .int 1, .int 2, .int 3]) ∧
    lisp_eval [] initialGlobals 20 99
        (.list [.sym "+", .int 1, .int 2, .int 3]) =
      .ok (initialGlobals, [], some (.int 6)) ∧
    lisp_eval [] initialGlobals 20 99
        (.list [.sym "-", .int 10, .int 3, .int 2]) =
      .ok (initialGlobals, [], some (.int 5)) ∧
    lisp_eval [] initialGlobals 20 99 (.list [.sym "-", .int 7]) =
      .ok (initialGlobals, [], some (.int (-7))) ∧
    lisp_eval [] initialGlobals 20 99
        (.list [.sym "*", .int 2, .int 3, .int 4]) =
      .ok (initialGlobals, [], some (.int 24)) ∧
    lisp_eval [] initialGlobals 20 99
        (.list [.sym "/", .int 100, .int 2, .int 5]) =
      .ok (initialGlobals, [], some (.float (.finite ⟨100, 10⟩))) ∧
    pyEq (.float (.finite ⟨100, 10⟩)) (.int 10) = true ∧
    lisp_eval [] initialGlobals 20 99
        (.list [.sym "apply", .sym "+", .quoted (.list [.int 1, .int 2, .int 3])]) =
      .ok (initialGlobals, [], some (.int 6)) ∧
    lisp_eval [] initialGlobals 20 99
        (.list [.sym "apply", .sym "*", .quoted (.list [.int 2, .int 3, .int 4])]) =
      .error (.rerr .nameError) := by
  have hadd : ∀ (l : List Int) (a : Int),
      List.foldlM pyAdd (PyVal.int a) (l.map .int) =
        .ok (.int (l.foldl (· + ·) a)) := by
    intro l
    induction l with
    | nil => intro a; rfl
    | cons x r ih =>
      intro a
      simp only [List.map_cons, List.foldlM_cons, List.foldl_cons]
      exact ih (a + x)
  have hsub : ∀ (l : List Int) (a : Int),
      List.foldlM pySub (PyVal.int a) (l.map .int) =
        .ok (.int (l.foldl (· - ·) a)) := by
    intro l
    induction l with
    | nil => intro a; rfl
    | cons x r ih =>
      intro a
      simp only [List.map_cons, List.foldlM_cons, List.foldl_cons]
      exact ih (a - x)
  refine ⟨?_, ?_, ?_, ?_, ?_, ?_, rfl, rfl, rfl, rfl, rfl, rfl, rfl, rfl, rfl⟩
  · intro l
    exact hadd l 0
  · intro a
    rfl
  · intro a b l
    simp only [List.map_cons]
    show (do
      let x ← pySub (.int a) (.int b)
      (l.map PyVal.int).foldlM pySub x) = _
    rw [show pySub (.int a) (.int b) = .ok (.int (a - b)) from rfl]
    simpa using hsub l (a - b)
  · intro v
    rfl
  · intro v
    rfl
  · intro args
    rfl

/-- C8 (amended): the defmacro branch extracts the name and parameters the
way def does, but does not seed the parameters into the locals table and
compiles only expr[2], the first body expression, before marking the unit
a macro; lisp_eval then registers the transformer's code in the macro
table, not the global environment, and returns no value; and a list form
whose head names a registered macro (and is no special form or operator) is
rewritten at compile time: the compiler calls the transformer on the
unevaluated argument expressions and compiles whatever expression the call
returns. -/
theorem C8_defmacro_branch_and_probe :
    (∀ (mt : Macros) (g : Globals) (fuel : Nat) (c : Compiler) (nm : PyVal)
      (params : List PyVal) (body1 : PyVal) (rest : List PyVal),
      Compiler.compile mt g (fuel + 1) c
          (.list (.sym "defmacro" :: .list (nm :: params) :: body1 :: rest)) =
        (Compiler.compile mt g fuel
          ⟨c.co_consts, c.co_names, c.bs, nm, params, c.arg_names, c.kind,
            c.generator⟩ body1).map
          (fun c2 => ⟨c2.co_consts, c2.co_names, c2.bs, c2.name, c2.args,
            c2.arg_names, some "macro", c2.generator⟩)) ∧
    (∀ (mt : Macros) (g : Globals) (cf rf : Nat) (e : PyVal) (c : Compiler),
      Compiler.compile mt g cf Compiler.init e = .ok c →
      c.kind = some "macro" →
      lisp_eval mt g cf rf e =
        .ok (g, mUpdate mt (pyStr c.name) c.to_code_object, Option.none)) ∧
    (∀ (mt : Macros) (g : Globals) (fuel : Nat) (c : Compiler) (s : String)
      (args : List PyVal) (co : CodeObj) (r : PyVal) (gr : Globals),
      s ∉ ["def", "defmacro", "if", "apply", ".", "import", "yield", "=",
        "while", "return"] →
      s ∉ ops →
      mLookup mt s = some co →
      args.length = co.argcount →
      runToRet co fuel (callFrame co args g) = .ok r gr →
      Compiler.compile mt g (fuel + 1) c (.list (.sym s :: args)) =
        Compiler.compile mt g fuel c r) := by
  refine ⟨?_, ?_, ?_⟩
  · intro mt g fuel c nm params body1 rest
    have hstep : Compiler.compile mt g (fuel + 1) c
        (.list (.sym "defmacro" :: .list (nm :: params) :: body1 :: rest)) =
        Except.bind (Compiler.compile mt g fuel
          ⟨c.co_consts, c.co_names, c.bs, nm, params, c.arg_names, c.kind,
            c.generator⟩ body1)
          (fun c2 => .ok ⟨c2.co_consts, c2.co_names, c2.bs, c2.name, c2.args,
            c2.arg_names, some "macro", c2.generator⟩) := rfl
    rw [hstep]
    cases Compiler.compile mt g fuel
        ⟨c.co_consts, c.co_names, c.bs, nm, params, c.arg_names, c.kind,
          c.generator⟩ body1 with
    | ok c2 => rfl
    | error err => rfl
  · intro mt g cf rf e c h hk
    exact lisp_eval_macro_case mt g cf rf e c h hk
  · intro mt g fuel c s args co r gr hs hops hco harr hrun
    simp only [List.mem_cons, List.mem_singleton] at hs
    push_neg at hs
    obtain ⟨n1, n2, n3, n4, n5, n6, n7, n8, n9, n10, -⟩ := hs
    conv_lhs => unfold Compiler.compile
    simp only [nth, List.get?, Bind.bind, Except.bind]
    rw [if_neg (by simp [isHead, n1]), if_neg (by simp [isHead, n2]),
      if_neg (by simp [isHead, n3]), if_neg (by simp [isHead, n4]),
      if_neg (by simp [isHead, n5]), if_neg (by simp [isHead, n6]),
      if_neg (by simp [isHead, n7]), if_neg (by simp [isHead, n8]),
      if_neg (by simp [isHead, n9]), if_neg (by simp [isHead, n10])]
    simp only [strish]
    rw [if_neg (by simpa using hops)]
    rw [hco]
    simp only [List.length_cons, List.length_drop]
    rw [if_pos (by simpa using harr)]
    simp only [List.drop_succ_cons, List.drop_zero]
    rw [hrun]

/-- C8 witness: a concrete transformer (defmacro (m) (quote (+ 1 2))) is
registered by lisp_eval, and compiling the form (m) against that macro
table equals compiling the replacement (+ 1 2) the transformer returns. -/
theorem C8_defmacro_witness :
    Compiler.compile [("m", ((Compiler.compile [] initialGlobals 9 Compiler.init
        (.list [.sym "defmacro", .list [.sym "m"],
          .quoted (.list [.sym "+", .int 1, .int 2])])).toOption.getD
        Compiler.init).to_code_object)]
        initialGlobals 9 Compiler.init (.list [.sym "m"]) =
      Compiler.compile [("m", ((Compiler.compile [] initialGlobals 9 Compiler.init
        (.list [.sym "defmacro", .list [.sym "m"],
          .quoted (.list [.sym "+", .int 1, .int 2])])).toOption.getD
        Compiler.init).to_code_object)]
        initialGlobals 8 Compiler.init (.list [.sym "+", .int 1, .int 2]) ∧
    lisp_eval [] initialGlobals 9 9
        (.list [.sym "defmacro", .list [.sym "m"],
          .quoted (.list [.sym "+", .int 1, .int 2])]) =
      .ok (initialGlobals, [("m", ((Compiler.compile [] initialGlobals 9 Compiler.init
        (.list [.sym "defmacro", .list [.sym "m"],
          .quoted (.list [.sym "+", .int 1, .int 2])])).toOption.getD
        Compiler.init).to_code_object)], Option.none) := by
  constructor
  · exact C8_defmacro_branch_and_probe.2.2
      [("m", ((Compiler.compile [] initialGlobals 9 Compiler.init
        (.list [.sym "defmacro", .list [.sym "m"],
          .quoted (.list [.sym "+", .int 1, .int 2])])).toOption.getD
        Compiler.init).to_code_object)]
      initialGlobals 8 Compiler.init "m" []
      ((Compiler.compile [] initialGlobals 9 Compiler.init
        (.list [.sym "defmacro", .list [.sym "m"],
          .quoted (.list [.sym "+", .int 1, .int 2])])).toOption.getD
        Compiler.init).to_code_object
      (.list [.sym "+", .int 1, .int 2]) initialGlobals
      (by decide) (by decide) rfl rfl rfl
  · exact C8_defmacro_branch_and_probe.2.1 [] initialGlobals 9 9
      (.list [.sym "defmacro", .list [.sym "m"],
        .quoted (.list [.sym "+", .int 1, .int 2])]) _ rfl rfl

/-- C9 witness: the five fall-through rules instantiated on concrete
tokens: 5 is an int, 1.5 the float 15/10, a double-quoted hi a string with
the delimiters stripped, a.b a dotted path and + a Symbol. -/
theorem C9_atom_classifier_witness :
    atom "5" = .int 5 ∧
    atom "1.5" = .float (.finite ⟨15, 10⟩) ∧
    atom "\"hi\"" = .str "hi" ∧
    atom "a.b" = .list [.str ".", .str "a", .str "b"] ∧
    atom "+" = .sym "+" := by
  refine ⟨C9_atom_classifier.1 "5" 5 rfl,
    C9_atom_classifier.2.1 "1.5" (.finite ⟨15, 10⟩) rfl rfl,
    C9_atom_classifier.2.2.1 "\"hi\"" rfl rfl rfl rfl,
    C9_atom_classifier.2.2.2.1 "a.b" rfl rfl (by decide) rfl,
    C9_atom_classifier.2.2.2.2.1 "+" rfl rfl (by decide) rfl⟩

/-- The compiler state after compiling the condition (< 1 2) into a fresh
unit: LOAD_CONST 1, LOAD_CONST 2, COMPARE_OP 0. -/
def ifC1 : Compiler :=
  (Compiler.compile [] initialGlobals 20 Compiler.init
    (.list [.sym "<", .int 1, .int 2])).toOption.getD Compiler.init

/-- The state after the placeholder false-jump and the then branch. -/
def ifC2 : Compiler :=
  (ifC1.emit "POP_JUMP_IF_FALSE" 0).compile_const (.str "yes")

/-- The state after the placeholder forward jump and the else branch. -/
def ifC3 : Compiler :=
  (ifC2.emit "JUMP_FORWARD" 0).compile_const (.str "no")

/-- The fresh-unit code window for (< 1 2) pushes True. -/
theorem ifC1_evals : EvalsTo Compiler.init ifC1 initialGlobals (.bool true) := by
  intro co hw st l
  have b0 : co.codestring.get? 0 = some 100 := by
    rw [hw.1 0 (by decide) (by decide)]; rfl
  have b1 : co.codestring.get? 1 = some 0 := by
    rw [hw.1 1 (by decide) (by decide)]; rfl
  have b2 : co.codestring.get? 2 = some 100 := by
    rw [hw.1 2 (by decide) (by decide)]; rfl
  have b3 : co.codestring.get? 3 = some 1 := by
    rw [hw.1 3 (by decide) (by decide)]; rfl
  have b4 : co.codestring.get? 4 = some 107 := by
    rw [hw.1 4 (by decide) (by decide)]; rfl
  have b5 : co.codestring.get? 5 = some 0 := by
    rw [hw.1 5 (by decide) (by decide)]; rfl
  have c0 : co.consts.get? 0 = some (.int 1) := by
    rw [listPre_get hw.2.1 (by decide)]; rfl
  have c1 : co.consts.get? 1 = some (.int 2) := by
    rw [listPre_get hw.2.1 (by decide)]; rfl
  have s1 : step co ⟨0, st, l, initialGlobals⟩ =
      .next ⟨2, .int 1 :: st, l, initialGlobals⟩ := step_load_const b0 b1 c0
  have s2 : step co ⟨2, .int 1 :: st, l, initialGlobals⟩ =
      .next ⟨4, .int 2 :: .int 1 :: st, l, initialGlobals⟩ :=
    step_load_const b2 b3 c1
  have s3 : step co ⟨4, .int 2 :: .int 1 :: st, l, initialGlobals⟩ =
      .next ⟨6, .bool true :: st, l, initialGlobals⟩ := step_compare_op b4 b5 rfl
  exact ⟨3,
    runsTo_trans (runsTo_trans (runsTo_one s1) (runsTo_one s2)) (runsTo_one s3)⟩

/-- C1: the compiled (if c t e) form is a ternary: for arbitrary condition,
then and else expressions whose three compilations evaluate to vc, vt and
ve, the form compiles to the doubly back-patched state and evaluates to vt
when vc is truthy and to ve otherwise; concretely, (if (< 1 2) "yes" "no")
parses and evaluates to "yes", (if (> 1 2) "yes" "no") to "no", and a
program with if forms nested two levels deep inside a while body
back-patches every branch target correctly: it drives x from -1 to 3 and
accumulates y = 200 + 100 + 10 + 20 = 330 across the four leaf branches,
the loop's value being None. -/
theorem C1_if_ternary_backpatch :
    (∀ (mt : Macros) (g : Globals) (fuel : Nat) (cs cs1 cs2 cs3 : Compiler)
        (cond thn els vc vt ve : PyVal),
      Compiler.compile mt g fuel cs cond = .ok cs1 →
      Compiler.compile mt g fuel (cs1.emit "POP_JUMP_IF_FALSE" 0) thn = .ok cs2 →
      Compiler.compile mt g fuel (cs2.emit "JUMP_FORWARD" 0) els = .ok cs3 →
      EvalsTo cs cs1 g vc →
      EvalsTo (cs1.emit "POP_JUMP_IF_FALSE" 0) cs2 g vt →
      EvalsTo (cs2.emit "JUMP_FORWARD" 0) cs3 g ve →
      Compiler.compile mt g (fuel + 2) cs (.list [.sym "if", cond, thn, els]) =
        .ok (ifPatched cs1 cs2 cs3) ∧
      EvalsTo cs (ifPatched cs1 cs2 cs3) g (if pyTruthy vc then vt else ve)) ∧
    parse ["(", "if", "(", "<", "1", "2", ")", "\"yes\"", "\"no\"", ")"] =
      .ok (.list [.sym "if", .list [.sym "<", .int 1, .int 2],
        .str "yes", .str "no"]) ∧
    lisp_eval [] initialGlobals 20 99
        (.list [.sym "if", .list [.sym "<", .int 1, .int 2],
          .str "yes", .str "no"]) =
      .ok (initialGlobals, [], some (.str "yes")) ∧
    parse ["(", "if", "(", ">", "1", "2", ")", "\"yes\"", "\"no\"", ")"] =
      .ok (.list [.sym "if", .list [.sym ">", .int 1, .int 2],
        .str "yes", .str "no"]) ∧
    lisp_eval [] initialGlobals 20 99
        (.list [.sym "if", .list [.sym ">", .int 1, .int 2],
          .str "yes", .str "no"]) =
      .ok (initialGlobals, [], some (.str "no")) ∧
    parse ["(", "while", "(", "<", "x", "3", ")",
        "(", "=", "x", "(", "+", "x", "1", ")", ")",
        "(", "=", "y", "(", "+", "y", "(", "if", "(", "<", "x", "2", ")",
        "(", "if", "(", "==", "x", "1", ")", "100", "200", ")",
        "(", "if", "(", "==", "x", "2", ")", "10", "20", ")",
        ")", ")", ")", ")"] =
      .ok (.list [.sym "while",
        .list [.sym "<", .sym "x", .int 3],
        .list [.sym "=", .sym "x", .list [.sym "+", .sym "x", .int 1]],
        .list [.sym "=", .sym "y",
          .list [.sym "+", .sym "y",
            .list [.sym "if", .list [.sym "<", .sym "x", .int 2],
              .list [.sym "if", .list [.sym "==", .sym "x", .int 1],
                .int 100, .int 200],
              .list [.sym "if", .list [.sym "==", .sym "x", .int 2],
                .int 10, .int 20]]]]]) ∧
    (lisp_eval [] (initialGlobals ++ [(.str "x", .int (-1)), (.str "y", .int 0)])
        40 300
        (.list [.sym "while",
          .list [.sym "<", .sym "x", .int 3],
          .list [.sym "=", .sym "x", .list [.sym "+", .sym "x", .int 1]],
          .list [.sym "=", .sym "y",
            .list [.sym "+", .sym "y",
              .list [.sym "if", .list [.sym "<", .sym "x", .int 2],
                .list [.sym "if", .list [.sym "==", .sym "x", .int 1],
                  .int 100, .int 200],
                .list [.sym "if", .list [.sym "==", .sym "x", .int 2],
                  .int 10, .int 20]]]]])).toOption.map
      (fun r => (r.2.2, gLookup r.1 (.str "x"), gLookup r.1 (.str "y"))) =
      some (some PyVal.none, some (.int 3), some (.int 330)) := by
  refine ⟨?_, rfl, rfl, rfl, rfl, rfl, rfl⟩
  intro mt g fuel cs cs1 cs2 cs3 cond thn els vc vt ve hc ht he hvc hvt hve
  exact compile_if_spec mt g fuel cs cs1 cs2 cs3 cond thn els vc vt ve
    hc ht he hvc hvt hve

/-- C1 witness: the ternary theorem instantiated on the fresh-unit
compilation of (if (< 1 2) "yes" "no"): the general conclusion yields the
concrete doubly patched state and its evaluation to "yes". -/
theorem C1_if_ternary_backpatch_witness :
    Compiler.compile [] initialGlobals 22 Compiler.init
        (.list [.sym "if", .list [.sym "<", .int 1, .int 2],
          .str "yes", .str "no"]) = .ok (ifPatched ifC1 ifC2 ifC3) ∧
    EvalsTo Compiler.init (ifPatched ifC1 ifC2 ifC3) initialGlobals
      (.str "yes") :=
  C1_if_ternary_backpatch.1 [] initialGlobals 20 Compiler.init ifC1 ifC2 ifC3
    (.list [.sym "<", .int 1, .int 2]) (.str "yes") (.str "no")
    (.bool true) (.str "yes") (.str "no")
    rfl rfl rfl ifC1_evals
    (evalsTo_const (ifC1.emit "POP_JUMP_IF_FALSE" 0) initialGlobals (.str "yes"))
    (evalsTo_const (ifC2.emit "JUMP_FORWARD" 0) initialGlobals (.str "no"))

/-- A window is stable under moving its left endpoint right. -/
theorem window_shift {c c₁ c' : Compiler} {co : CodeObj}
    (h : c.bs.length ≤ c₁.bs.length) (hw : Window c c' co) : Window c₁ c' co :=
  ⟨fun k hk1 hk2 => hw.1 k (Nat.le_trans h hk1) hk2, hw.2.1, hw.2.2⟩

/-- The quasiquote rebuild of a list, element by element: each element is
compiled by compile_quasiquoted with one unit less fuel (exactly the fuel
discipline of compile_qq_list) and its code window evaluates to the
matching runtime value. -/
inductive QQChain (mt : Macros) (g : Globals) :
    Nat → Compiler → List PyVal → Compiler → List PyVal → Prop where
  | nil (fuel : Nat) (c : Compiler) : QQChain mt g (fuel + 1) c [] c []
  | cons {fuel : Nat} {c c₁ c₂ : Compiler} {x v : PyVal}
      {rest vs : List PyVal}
      (hx : Compiler.compile_quasiquoted mt g fuel c x = .ok c₁)
      (hv : EvalsTo c c₁ g v)
      (tl : QQChain mt g fuel c₁ rest c₂ vs) :
      QQChain mt g (fuel + 1) c (x :: rest) c₂ (v :: vs)

/-- A chained rebuild is exactly a run of compile_qq_list, its value list
keeps the element list's length and order, and running the whole window
pushes the values left to right. -/
theorem qqchain_spec {mt : Macros} {g : Globals} {fuel : Nat}
    {c : Compiler} {xs : List PyVal} {c' : Compiler} {vs : List PyVal}
    (ch : QQChain mt g fuel c xs c' vs) :
    Compiler.compile_qq_list mt g fuel c xs = .ok c' ∧
    vs.length = xs.length ∧
    ∀ co, Window c c' co → ∀ st l, ∃ n,
      RunsTo co n ⟨c.bs.length, st, l, g⟩
        ⟨c'.bs.length, vs.reverse ++ st, l, g⟩ := by
  induction ch with
  | nil fuel c =>
    refine ⟨rfl, rfl, ?_⟩
    intro co hw st l
    exact ⟨0, runsTo_zero co _⟩
  | @cons fl cc c₁ c₂ x v rest ws hx hv tl ih =>
    obtain ⟨ihq, ihlen, ihrun⟩ := ih
    have hq : Compiler.compile_qq_list mt g (fl + 1) cc (x :: rest) = .ok c₂ := by
      simp only [Compiler.compile_qq_list, hx, Bind.bind, Except.bind]
      exact ihq
    refine ⟨hq, by simp [ihlen], ?_⟩
    intro co hw st l
    have G1 : Grows cc c₁ :=
      (compile_grows_all mt g fl).2.2.2.2.2.2.2.2.2.2.2.1 _ _ _ hx
    have G2 : Grows c₁ c₂ :=
      (compile_grows_all mt g fl).2.2.2.2.2.2.2.2.2.2.2.2 _ _ _ ihq
    have hw1 := window_mono G2.1 G2.2.1 G2.2.2.1 hw
    have hw2 := window_shift (listPre_length G1.1) hw
    obtain ⟨na, ra⟩ := hv co hw1 st l
    obtain ⟨nb, rb⟩ := ihrun co hw2 (v :: st) l
    refine ⟨na + nb, ?_⟩
    have r := runsTo_trans ra rb
    have hstk : (v :: ws).reverse ++ st = ws.reverse ++ (v :: st) := by
      simp
    rw [hstk]
    exact r

/-- C3: compiling Quoted(x) embeds the unevaluated structure of x verbatim
as a fresh constant (nested unquote markers included) and its window
evaluates to exactly that structure; the quasiquote rebuild compiles an
unquoted element normally (so it is evaluated at run time), embeds a
non-list non-unquoted element as a literal constant, and a quasiquoted
list whose elements chain-compile to values vs builds a runtime list of
the same length in the original order; concretely, with x bound to 5 the
quasiquoted (1 ,x 3) parses and evaluates to [1, 5, 3] while the plain
quote of (1 ,x 3) evaluates to the literal structure still holding the
unevaluated unquote marker. -/
theorem C3_quote_quasiquote :
    (∀ (mt : Macros) (g : Globals) (fuel : Nat) (c : Compiler) (x : PyVal),
      Compiler.compile mt g (fuel + 1) c (.quoted x) =
        .ok (c.compile_const x) ∧
      (c.compile_const x).co_consts = c.co_consts ++ [x] ∧
      EvalsTo c (c.compile_const x) g x) ∧
    (∀ (mt : Macros) (g : Globals) (fuel : Nat) (c : Compiler) (y : PyVal),
      Compiler.compile_quasiquoted mt g (fuel + 1) c (.unquoted y) =
        Compiler.compile mt g fuel c y) ∧
    (∀ (mt : Macros) (g : Globals) (fuel : Nat) (c : Compiler) (y : PyVal),
      (∀ ys : List PyVal, y ≠ .list ys) → (∀ z : PyVal, y ≠ .unquoted z) →
      Compiler.compile_quasiquoted mt g (fuel + 1) c y =
        .ok (c.compile_const y)) ∧
    (∀ (mt : Macros) (g : Globals) (fuel : Nat) (c c' : Compiler)
        (xs vs : List PyVal),
      QQChain mt g fuel c xs c' vs →
      Compiler.compile mt g (fuel + 2) c (.quasiquoted (.list xs)) =
        .ok (c'.emit "BUILD_LIST" xs.length) ∧
      vs.length = xs.length ∧
      EvalsTo c (c'.emit "BUILD_LIST" xs.length) g (.list vs)) ∧
    parse ["`", "(", "1", ",", "x", "3", ")"] =
      .ok (.quasiquoted (.list [.int 1, .unquoted (.sym "x"), .int 3])) ∧
    parse ["'", "(", "1", ",", "x", "3", ")"] =
      .ok (.quoted (.list [.int 1, .unquoted (.sym "x"), .int 3])) ∧
    lisp_eval [] (initialGlobals ++ [(.str "x", .int 5)]) 20 99
        (.quasiquoted (.list [.int 1, .unquoted (.sym "x"), .int 3])) =
      .ok (initialGlobals ++ [(.str "x", .int 5)], [],
        some (.list [.int 1, .int 5, .int 3])) ∧
    lisp_eval [] (initialGlobals ++ [(.str "x", .int 5)]) 20 99
        (.quoted (.list [.int 1, .unquoted (.sym "x"), .int 3])) =
      .ok (initialGlobals ++ [(.str "x", .int 5)], [],
        some (.list [.int 1, .unquoted (.sym "x"), .int 3])) := by
  refine ⟨?_, ?_, ?_, ?_, rfl, rfl, rfl, rfl⟩
  · intro mt g fuel c x
    exact ⟨rfl, by simp [Compiler.compile_const, Compiler.emit],
      evalsTo_const c g x⟩
  · intro mt g fuel c y
    rfl
  · intro mt g fuel c y hl hu
    cases y
    case list ys => exact absurd rfl (hl ys)
    case unquoted z => exact absurd rfl (hu z)
    all_goals rfl
  · intro mt g fuel c c' xs vs ch
    obtain ⟨hq, hlv, hrun⟩ := qqchain_spec ch
    have hstep : Compiler.compile mt g (fuel + 2) c (.quasiquoted (.list xs)) =
        Except.bind (Compiler.compile_qq_list mt g fuel c xs)
          (fun c2 => .ok (c2.emit "BUILD_LIST" xs.length)) := rfl
    refine ⟨by rw [hstep, hq]; rfl, hlv, ?_⟩
    intro co hw st l
    have G : Grows c c' :=
      (compile_grows_all mt g fuel).2.2.2.2.2.2.2.2.2.2.2.2 _ _ _ hq
    have hbs : (c'.emit "BUILD_LIST" xs.length).bs =
        c'.bs ++ [103, xs.length] := by
      simp [Compiler.emit, opmap]
    have hlen2 : (c'.emit "BUILD_LIST" xs.length).bs.length =
        c'.bs.length + 2 := by
      rw [hbs]
      simp
    have hw' : Window c c' co := by
      refine window_mono ?_ ?_ ?_ hw
      · rw [hbs]
        exact listPre_append _ _
      · exact listPre_refl _
      · exact listPre_refl _
    obtain ⟨n, r⟩ := hrun co hw' st l
    have b0 : co.codestring.get? c'.bs.length = some 103 := by
      rw [hw.1 c'.bs.length (grows_bs_le G) (by omega), hbs]
      rw [List.get?_append_right (Nat.le_refl _)]
      simp
    have b1 : co.codestring.get? (c'.bs.length + 1) = some xs.length := by
      rw [hw.1 (c'.bs.length + 1) (by have := grows_bs_le G; omega) (by omega),
        hbs]
      rw [List.get?_append_right (by omega)]
      simp
    have hstk : xs.length ≤ (vs.reverse ++ st).length := by
      simp [hlv]
    have s := @step_build_list co c'.bs.length (vs.reverse ++ st) l g
      xs.length b0 b1 hstk
    have htake : ((vs.reverse ++ st).take xs.length).reverse = vs := by
      rw [← hlv, ← List.length_reverse vs, List.take_left]
      exact List.reverse_reverse vs
    have hdrop : (vs.reverse ++ st).drop xs.length = st := by
      rw [← hlv, ← List.length_reverse vs, List.drop_left]
    rw [htake, hdrop] at s
    refine ⟨n + 1, ?_⟩
    rw [hlen2]
    exact runsTo_trans r (runsTo_one s)

/-- The global environment binding x to 5 and the three chained compiler
states of the quasiquote rebuild of (1 ,x 3) from a fresh unit. -/
def qqG : Globals := initialGlobals ++ [(.str "x", .int 5)]

/-- State after the constant 1. -/
def qqC1 : Compiler := Compiler.init.compile_const (.int 1)

/-- State after the compiled unquoted variable x. -/
def qqC2 : Compiler := qqC1.compile_var (.sym "x")

/-- State after the constant 3. -/
def qqC3 : Compiler := qqC2.compile_const (.int 3)

/-- C3 witness: the quote rule on the concrete wrapped list, the
literal-constant rule on a concrete non-list element, and the list-rebuild
theorem on the concrete chain for (1 ,x 3) with x bound to 5. -/
theorem C3_quote_quasiquote_witness :
    Compiler.compile [] qqG 5 Compiler.init
        (.quoted (.list [.int 1, .unquoted (.sym "x"), .int 3])) =
      .ok (Compiler.init.compile_const
        (.list [.int 1, .unquoted (.sym "x"), .int 3])) ∧
    Compiler.compile_quasiquoted [] qqG 5 Compiler.init (.int 1) =
      .ok qqC1 ∧
    Compiler.compile [] qqG 7 Compiler.init
        (.quasiquoted (.list [.int 1, .unquoted (.sym "x"), .int 3])) =
      .ok (qqC3.emit "BUILD_LIST" 3) ∧
    EvalsTo Compiler.init (qqC3.emit "BUILD_LIST" 3) qqG
      (.list [.int 1, .int 5, .int 3]) := by
  have hch : QQChain [] qqG 5 Compiler.init
      [.int 1, .unquoted (.sym "x"), .int 3] qqC3 [.int 1, .int 5, .int 3] :=
    QQChain.cons rfl (evalsTo_const Compiler.init qqG (.int 1))
      (QQChain.cons rfl
        (evalsTo_var_global qqC1 qqG (.sym "x") (.int 5) rfl rfl rfl)
        (QQChain.cons rfl (evalsTo_const qqC2 qqG (.int 3))
          (QQChain.nil 1 qqC3)))
  have h4 := C3_quote_quasiquote.2.2.2.1 [] qqG 5 Compiler.init qqC3
    [.int 1, .unquoted (.sym "x"), .int 3] [.int 1, .int 5, .int 3] hch
  exact ⟨(C3_quote_quasiquote.1 [] qqG 4 Compiler.init
      (.list [.int 1, .unquoted (.sym "x"), .int 3])).1,
    C3_quote_quasiquote.2.2.1 [] qqG 4 Compiler.init (.int 1)
      (fun ys h => PyVal.noConfusion h) (fun z h => PyVal.noConfusion h),
    h4.1, h4.2.2⟩

/-! ### The reader grammar: the specification side of the parse taxonomy -/

mutual

/-- The grammar of one complete expression, written from the spec's
description of the reader: an open paren reads a list run up to its
matching close paren, each of the three prefix marks reads exactly one
following expression, and any other token (a stray close paren included)
is one atom.  Reads toks e rest holds when one expression e can be read
off the front of toks leaving rest. -/
inductive Reads : List String → PyVal → List String → Prop where
  | word (t : String) (rest : List String) :
      t ≠ "(" → t ≠ "'" → t ≠ "`" → t ≠ "," →
      Reads (t :: rest) (atom t) rest
  | list (toks : List String) (xs : List PyVal) (rest : List String) :
      ReadsList toks xs rest → Reads ("(" :: toks) (.list xs) rest
  | quote (toks : List String) (x : PyVal) (rest : List String) :
      Reads toks x rest → Reads ("'" :: toks) (.quoted x) rest
  | qquote (toks : List String) (x : PyVal) (rest : List String) :
      Reads toks x rest → Reads ("`" :: toks) (.quasiquoted x) rest
  | unquote (toks : List String) (x : PyVal) (rest : List String) :
      Reads toks x rest → Reads ("," :: toks) (.unquoted x) rest

/-- The list run of the grammar: a close paren ends the run and is
consumed; any other token starts one expression and the run continues. -/
inductive ReadsList : List String → List PyVal → List String → Prop where
  | close (rest : List String) : ReadsList (")" :: rest) [] rest
  | cons (t : String) (ts : List String) (x : PyVal) (mid : List String)
      (xs : List PyVal) (rest : List String) :
      t ≠ ")" → Reads (t :: ts) x mid → ReadsList mid xs rest →
      ReadsList (t :: ts) (x :: xs) rest

end

/-- Every derivation of the grammar consumes at least one token (strong
induction on the token count; the expression part is proved first and
feeds the list part at the same bound). -/
theorem reads_consume : ∀ n : Nat,
    (∀ toks e rest, toks.length ≤ n → Reads toks e rest →
      rest.length < toks.length) ∧
    (∀ toks xs rest, toks.length ≤ n → ReadsList toks xs rest →
      rest.length < toks.length) := by
  intro n
  induction n with
  | zero =>
    constructor
    · intro toks e rest hn h
      cases h <;> simp at hn
    · intro toks xs rest hn h
      cases h <;> simp at hn
  | succ n ih =>
    have p1 : ∀ toks e rest, toks.length ≤ n + 1 → Reads toks e rest →
        rest.length < toks.length := by
      intro toks e rest hn h
      cases h with
      | word t r h1 h2 h3 h4 =>
        simp only [List.length_cons]
        omega
      | list ts xs r hl =>
        have hts : ts.length ≤ n := by
          simp only [List.length_cons] at hn
          omega
        have := ih.2 ts xs rest hts hl
        simp only [List.length_cons]
        omega
      | quote ts x r hx =>
        have hts : ts.length ≤ n := by
          simp only [List.length_cons] at hn
          omega
        have := ih.1 ts x rest hts hx
        simp only [List.length_cons]
        omega
      | qquote ts x r hx =>
        have hts : ts.length ≤ n := by
          simp only [List.length_cons] at hn
          omega
        have := ih.1 ts x rest hts hx
        simp only [List.length_cons]
        omega
      | unquote ts x r hx =>
        have hts : ts.length ≤ n := by
          simp only [List.length_cons] at hn
          omega
        have := ih.1 ts x rest hts hx
        simp only [List.length_cons]
        omega
    refine ⟨p1, ?_⟩
    intro toks xs rest hn h
    cases h with
    | close r =>
      simp only [List.length_cons]
      omega
    | cons t ts x mid ys r ht hx hl =>
      have h1 := p1 (t :: ts) x mid hn hx
      have hmn : mid.length ≤ n := by
        simp only [List.length_cons] at h1 hn
        omega
      have h2 := ih.2 mid ys rest hmn hl
      omega

/-- Success of the fueled reader derives the grammar (soundness). -/
theorem parseF_sound : ∀ fuel : Nat,
    (∀ toks e rest, parseF fuel toks = .ok (e, rest) → Reads toks e rest) ∧
    (∀ toks xs rest, parseListF fuel toks = .ok (xs, rest) →
      ReadsList toks xs rest) := by
  intro fuel
  induction fuel with
  | zero =>
    constructor
    · intro toks e rest h
      simp [parseF] at h
    · intro toks xs rest h
      simp [parseListF] at h
  | succ fuel ih =>
    constructor
    · intro toks e rest h
      match toks with
      | [] => simp [parseF] at h
      | t :: ts =>
        unfold parseF at h
        by_cases h1 : t = "("
        case pos =>
          rw [if_pos h1] at h
          rw [except_bind_ok] at h
          obtain ⟨⟨xs, r⟩, hx, hf⟩ := h
          simp only [Except.ok.injEq, Prod.mk.injEq] at hf
          obtain ⟨he, hr⟩ := hf
          subst h1
          rw [← he, ← hr]
          exact Reads.list ts xs r (ih.2 ts xs r hx)
        case neg =>
          rw [if_neg h1] at h
          by_cases h2 : t = "'"
          case pos =>
            rw [if_pos h2] at h
            rw [except_bind_ok] at h
            obtain ⟨⟨x, r⟩, hx, hf⟩ := h
            simp only [Except.ok.injEq, Prod.mk.injEq] at hf
            obtain ⟨he, hr⟩ := hf
            subst h2
            rw [← he, ← hr]
            exact Reads.quote ts x r (ih.1 ts x r hx)
          case neg =>
            rw [if_neg h2] at h
            by_cases h3 : t = "`"
            case pos =>
              rw [if_pos h3] at h
              rw [except_bind_ok] at h
              obtain ⟨⟨x, r⟩, hx, hf⟩ := h
              simp only [Except.ok.injEq, Prod.mk.injEq] at hf
              obtain ⟨he, hr⟩ := hf
              subst h3
              rw [← he, ← hr]
              exact Reads.qquote ts x r (ih.1 ts x r hx)
            case neg =>
              rw [if_neg h3] at h
              by_cases h4 : t = ","
              case pos =>
                rw [if_pos h4] at h
                rw [except_bind_ok] at h
                obtain ⟨⟨x, r⟩, hx, hf⟩ := h
                simp only [Except.ok.injEq, Prod.mk.injEq] at hf
                obtain ⟨he, hr⟩ := hf
                subst h4
                rw [← he, ← hr]
                exact Reads.unquote ts x r (ih.1 ts x r hx)
              case neg =>
                rw [if_neg h4] at h
                simp only [Except.ok.injEq, Prod.mk.injEq] at h
                obtain ⟨he, hr⟩ := h
                rw [← he, ← hr]
                exact Reads.word t ts h1 h2 h3 h4
    · intro toks xs rest h
      match toks with
      | [] => simp [parseListF] at h
      | t :: ts =>
        unfold parseListF at h
        by_cases h1 : t = ")"
        case pos =>
          rw [if_pos h1] at h
          simp only [Except.ok.injEq, Prod.mk.injEq] at h
          obtain ⟨hxs, hr⟩ := h
          subst h1
          rw [← hxs, ← hr]
          exact ReadsList.close ts
        case neg =>
          rw [if_neg h1] at h
          rw [except_bind_ok] at h
          obtain ⟨⟨x, mid⟩, hx, h⟩ := h
          simp only at h
          rw [except_bind_ok] at h
          obtain ⟨⟨ys, r2⟩, hl, h⟩ := h
          simp only [Except.ok.injEq, Prod.mk.injEq] at h
          obtain ⟨hxs, hr⟩ := h
          rw [← hxs, ← hr]
          exact ReadsList.cons t ts x mid ys r2 h1
            (ih.1 (t :: ts) x mid hx) (ih.2 mid ys r2 hl)

/-- Grammar derivations are read back by the fueled reader whenever the
fuel covers twice the number of consumed tokens (completeness). -/
theorem reads_complete : ∀ n : Nat,
    (∀ toks e rest, toks.length ≤ n → Reads toks e rest → ∀ fuel,
      2 * (toks.length - rest.length) ≤ fuel →
      parseF fuel toks = .ok (e, rest)) ∧
    (∀ toks xs rest, toks.length ≤ n → ReadsList toks xs rest → ∀ fuel,
      2 * (toks.length - rest.length) ≤ fuel →
      parseListF fuel toks = .ok (xs, rest)) := by
  intro n
  induction n with
  | zero =>
    constructor
    · intro toks e rest hn h fuel hf
      cases h <;> simp at hn
    · intro toks xs rest hn h fuel hf
      cases h <;> simp at hn
  | succ n ih =>
    have p1 : ∀ toks e rest, toks.length ≤ n + 1 → Reads toks e rest →
        ∀ fuel, 2 * (toks.length - rest.length) ≤ fuel →
        parseF fuel toks = .ok (e, rest) := by
      intro toks e rest hn h fuel hf
      cases h with
      | word t r h1 h2 h3 h4 =>
        cases fuel with
        | zero =>
          simp only [List.length_cons] at hf
          omega
        | succ f =>
          unfold parseF
          rw [if_neg h1, if_neg h2, if_neg h3, if_neg h4]
      | list ts xs r hl =>
        have hts : ts.length ≤ n := by
          simp only [List.length_cons] at hn
          omega
        have hc := (reads_consume ts.length).2 ts xs rest (Nat.le_refl _) hl
        cases fuel with
        | zero =>
          simp only [List.length_cons] at hf
          omega
        | succ f =>
          have hl2 := ih.2 ts xs rest hts hl f
            (by simp only [List.length_cons] at hf; omega)
          unfold parseF
          rw [if_pos rfl]
          simp only [hl2, Bind.bind, Except.bind]
      | quote ts x r hx =>
        have hts : ts.length ≤ n := by
          simp only [List.length_cons] at hn
          omega
        have hc := (reads_consume ts.length).1 ts x rest (Nat.le_refl _) hx
        cases fuel with
        | zero =>
          simp only [List.length_cons] at hf
          omega
        | succ f =>
          have hx2 := ih.1 ts x rest hts hx f
            (by simp only [List.length_cons] at hf; omega)
          unfold parseF
          rw [if_neg (by decide : ¬("'" : String) = "("), if_pos rfl]
          simp only [hx2, Bind.bind, Except.bind]
      | qquote ts x r hx =>
        have hts : ts.length ≤ n := by
          simp only [List.length_cons] at hn
          omega
        have hc := (reads_consume ts.length).1 ts x rest (Nat.le_refl _) hx
        cases fuel with
        | zero =>
          simp only [List.length_cons] at hf
          omega
        | succ f =>
          have hx2 := ih.1 ts x rest hts hx f
            (by simp only [List.length_cons] at hf; omega)
          unfold parseF
          rw [if_neg (by decide : ¬("`" : String) = "("),
            if_neg (by decide : ¬("`" : String) = "'"), if_pos rfl]
          simp only [hx2, Bind.bind, Except.bind]
      | unquote ts x r hx =>
        have hts : ts.length ≤ n := by
          simp only [List.length_cons] at hn
          omega
        have hc := (reads_consume ts.length).1 ts x rest (Nat.le_refl _) hx
        cases fuel with
        | zero =>
          simp only [List.length_cons] at hf
          omega
        | succ f =>
          have hx2 := ih.1 ts x rest hts hx f
            (by simp only [List.length_cons] at hf; omega)
          unfold parseF
          rw [if_neg (by decide : ¬("," : String) = "("),
            if_neg (by decide : ¬("," : String) = "'"),
            if_neg (by decide : ¬("," : String) = "`"), if_pos rfl]
          simp only [hx2, Bind.bind, Except.bind]
    refine ⟨p1, ?_⟩
    intro toks xs rest hn h fuel hf
    cases h with
    | close r =>
      cases fuel with
      | zero =>
        simp only [List.length_cons] at hf
        omega
      | succ f =>
        unfold parseListF
        rw [if_pos rfl]
    | cons t ts x mid ys r ht hx hl =>
      have hmid := (reads_consume (t :: ts).length).1 (t :: ts) x mid
        (Nat.le_refl _) hx
      have hrest := (reads_consume mid.length).2 mid ys rest
        (Nat.le_refl _) hl
      cases fuel with
      | zero =>
        simp only [List.length_cons] at hf hmid
        omega
      | succ f =>
        have hx2 := p1 (t :: ts) x mid hn hx f
          (by simp only [List.length_cons] at hf hmid ⊢; omega)
        have hmn : mid.length ≤ n := by
          simp only [List.length_cons] at hn hmid
          omega
        have hl2 := ih.2 mid ys rest hmn hl f
          (by simp only [List.length_cons] at hf hmid; omega)
        unfold parseListF
        rw [if_neg ht]
        simp only [hx2, hl2, Bind.bind, Except.bind]

/-- At sufficient fuel the fueled reader's only failure is the token
exhaustion the source raises as IndexError (in particular fuelOut never
escapes, and no reader branch makes a ValueError). -/
theorem parseF_errors : ∀ fuel : Nat,
    (∀ toks err, 2 * toks.length + 1 ≤ fuel →
      parseF fuel toks = .error err → err = .indexError) ∧
    (∀ toks err, 2 * toks.length + 2 ≤ fuel →
      parseListF fuel toks = .error err → err = .indexError) := by
  intro fuel
  induction fuel with
  | zero =>
    constructor
    · intro toks err hb
      omega
    · intro toks err hb
      omega
  | succ f ih =>
    constructor
    · intro toks err hb h
      match toks with
      | [] =>
        simp only [parseF, Except.error.injEq] at h
        exact h.symm
      | t :: ts =>
        unfold parseF at h
        by_cases h1 : t = "("
        case pos =>
          rw [if_pos h1] at h
          cases hres : parseListF f ts with
          | ok p =>
            obtain ⟨xs, r⟩ := p
            rw [hres] at h
            simp [Bind.bind, Except.bind] at h
          | error e =>
            rw [hres] at h
            simp only [Bind.bind, Except.bind, Except.error.injEq] at h
            have he := ih.2 ts e
              (by simp only [List.length_cons] at hb; omega) hres
            rw [← h, he]
        case neg =>
          rw [if_neg h1] at h
          by_cases h2 : t = "'"
          case pos =>
            rw [if_pos h2] at h
            cases hres : parseF f ts with
            | ok p =>
              obtain ⟨x, r⟩ := p
              rw [hres] at h
              simp [Bind.bind, Except.bind] at h
            | error e =>
              rw [hres] at h
              simp only [Bind.bind, Except.bind, Except.error.injEq] at h
              have he := ih.1 ts e
                (by simp only [List.length_cons] at hb; omega) hres
              rw [← h, he]
          case neg =>
            rw [if_neg h2] at h
            by_cases h3 : t = "`"
            case pos =>
              rw [if_pos h3] at h
              cases hres : parseF f ts with
              | ok p =>
                obtain ⟨x, r⟩ := p
                rw [hres] at h
                simp [Bind.bind, Except.bind] at h
              | error e =>
                rw [hres] at h
                simp only [Bind.bind, Except.bind, Except.error.injEq] at h
                have he := ih.1 ts e
                  (by simp only [List.length_cons] at hb; omega) hres
                rw [← h, he]
            case neg =>
              rw [if_neg h3] at h
              by_cases h4 : t = ","
              case pos =>
                rw [if_pos h4] at h
                cases hres : parseF f ts with
                | ok p =>
                  obtain ⟨x, r⟩ := p
                  rw [hres] at h
                  simp [Bind.bind, Except.bind] at h
                | error e =>
                  rw [hres] at h
                  simp only [Bind.bind, Except.bind, Except.error.injEq] at h
                  have he := ih.1 ts e
                    (by simp only [List.length_cons] at hb; omega) hres
                  rw [← h, he]
              case neg =>
                rw [if_neg h4] at h
                simp at h
    · intro toks err hb h
      match toks with
      | [] =>
        simp only [parseListF, Except.error.injEq] at h
        exact h.symm
      | t :: ts =>
        unfold parseListF at h
        by_cases h1 : t = ")"
        case pos =>
          rw [if_pos h1] at h
          simp at h
        case neg =>
          rw [if_neg h1] at h
          cases hres : parseF f (t :: ts) with
          | ok p =>
            obtain ⟨x, mid⟩ := p
            rw [hres] at h
            simp only [Bind.bind, Except.bind] at h
            have hd := (parseF_sound f).1 (t :: ts) x mid hres
            have hc := (reads_consume (t :: ts).length).1 (t :: ts) x mid
              (Nat.le_refl _) hd
            cases hres2 : parseListF f mid with
            | ok q =>
              obtain ⟨ys, r⟩ := q
              rw [hres2] at h
              simp [Except.bind] at h
            | error e =>
              rw [hres2] at h
              simp only [Except.bind, Except.error.injEq] at h
              have he := ih.2 mid e
                (by simp only [List.length_cons] at hb hc; omega) hres2
              rw [← h, he]
          | error e =>
            rw [hres] at h
            simp only [Bind.bind, Except.bind, Except.error.injEq] at h
            have he := ih.1 (t :: ts) e
              (by simp only [List.length_cons] at hb ⊢; omega) hres
            rw [← h, he]

/-- C4 (amended): top-level parse raises exactly when the token stream
does not derive one complete expression consuming everything: it returns
an expression iff the grammar reads one expression consuming the entire
stream, raises ValueError iff the grammar reads one expression leaving
tokens over, and raises IndexError iff no expression can be read at all
(the tokens run out mid-expression: a missing close paren, a prefix mark
with nothing after it, or empty input); every derivation consumes at
least one token.  A lone close paren is not an error: it reads as the
Symbol close-paren. -/
theorem C4_parse_taxonomy :
    (∀ (toks : List String) (e : PyVal),
      parse toks = .ok e ↔ Reads toks e []) ∧
    (∀ toks : List String, parse toks = .error .valueError ↔
      ∃ e rest, Reads toks e rest ∧ rest ≠ []) ∧
    (∀ toks : List String, parse toks = .error .indexError ↔
      ¬ ∃ e rest, Reads toks e rest) ∧
    (∀ (toks : List String) (e : PyVal) (rest : List String),
      Reads toks e rest → rest.length < toks.length) ∧
    parse [] = .error .indexError ∧
    parse ["(", "1", "2"] = .error .indexError ∧
    parse ["'"] = .error .indexError ∧
    parse ["1", "2"] = .error .valueError ∧
    parse [")"] = .ok (.sym ")") := by
  have hcomp : ∀ (toks : List String) (e : PyVal) (rest : List String),
      Reads toks e rest →
      parseF (2 * toks.length + 2) toks = .ok (e, rest) := by
    intro toks e rest hd
    have hc := (reads_consume toks.length).1 toks e rest (Nat.le_refl _) hd
    exact (reads_complete toks.length).1 toks e rest (Nat.le_refl _) hd
      (2 * toks.length + 2) (by omega)
  refine ⟨?_, ?_, ?_,
    fun toks e rest h =>
      (reads_consume toks.length).1 toks e rest (Nat.le_refl _) h,
    rfl, rfl, rfl, rfl, rfl⟩
  · intro toks e
    constructor
    · intro h
      unfold parse _parse at h
      cases hres : parseF (2 * toks.length + 2) toks with
      | ok p =>
        obtain ⟨e', rest⟩ := p
        rw [hres] at h
        cases rest with
        | nil =>
          simp only [Except.ok.injEq] at h
          rw [← h]
          exact (parseF_sound _).1 toks e' [] hres
        | cons a r => simp at h
      | error err =>
        rw [hres] at h
        simp at h
    · intro hd
      unfold parse _parse
      rw [hcomp toks e [] hd]
  · intro toks
    constructor
    · intro h
      unfold parse _parse at h
      cases hres : parseF (2 * toks.length + 2) toks with
      | ok p =>
        obtain ⟨e', rest⟩ := p
        rw [hres] at h
        cases rest with
        | nil => simp at h
        | cons a r =>
          exact ⟨e', a :: r, (parseF_sound _).1 toks e' (a :: r) hres,
            by simp⟩
      | error err =>
        rw [hres] at h
        simp only [Except.error.injEq] at h
        have := (parseF_errors (2 * toks.length + 2)).1 toks err
          (by omega) hres
        rw [this] at h
        cases h
    · intro hex
      obtain ⟨e, rest, hd, hne⟩ := hex
      unfold parse _parse
      rw [hcomp toks e rest hd]
      cases rest with
      | nil => exact absurd rfl hne
      | cons a r => rfl
  · intro toks
    constructor
    · intro h hex
      obtain ⟨e, rest, hd⟩ := hex
      unfold parse _parse at h
      rw [hcomp toks e rest hd] at h
      cases rest with
      | nil => simp at h
      | cons a r => simp at h
    · intro hno
      unfold parse _parse
      cases hres : parseF (2 * toks.length + 2) toks with
      | ok p =>
        obtain ⟨e', rest⟩ := p
        exact absurd ⟨e', rest, (parseF_sound _).1 toks e' rest hres⟩ hno
      | error err =>
        have := (parseF_errors (2 * toks.length + 2)).1 toks err
          (by omega) hres
        rw [this]

/-- C4 witness: the characterization and the consumption bound
instantiated on the concrete token stream of the list (1 2), read by an
explicit grammar derivation. -/
theorem C4_parse_taxonomy_witness :
    parse ["(", "1", "2", ")"] = .ok (.list [.int 1, .int 2]) ∧
    List.length ([] : List String) < List.length ["(", "1", "2", ")"] := by
  have hd : Reads ["(", "1", "2", ")"] (.list [.int 1, .int 2]) [] :=
    Reads.list ["1", "2", ")"] [.int 1, .int 2] []
      (ReadsList.cons "1" ["2", ")"] (.int 1) ["2", ")"] [.int 2] []
        (by decide)
        (Reads.word "1" ["2", ")"]
          (by decide) (by decide) (by decide) (by decide))
        (ReadsList.cons "2" [")"] (.int 2) [")"] [] []
          (by decide)
          (Reads.word "2" [")"]
            (by decide) (by decide) (by decide) (by decide))
          (ReadsList.close [])))
  exact ⟨(C4_parse_taxonomy.1 ["(", "1", "2", ")"]
      (.list [.int 1, .int 2])).mpr hd,
    C4_parse_taxonomy.2.2.2.1 ["(", "1", "2", ")"]
      (.list [.int 1, .int 2]) [] hd⟩

end Pylisp



